import Mathlib

/-
Verification of the SMMU functional model (translation cache, page-table
walker, descriptor parser, translation orchestrator, command and event
queues) against its natural-language specification.  The definitions below
are a shallow embedding of the C++ sources: include/smmu_types.h,
include/page_table.h with src/page_table.cpp, include/tlb.h with
src/tlb.cpp, and include/smmu.h with src/smmu.cpp.  Machine integers are
modelled as Nat (all the arithmetic involved stays far below 2^64, and bit
extraction is done with explicit mask operations exactly as in the source).
The fallible memory-read callback is modelled as a function into Option.
-/

namespace SmmuModel

/-- Page sizes, with the byte values of the C++ enum PageSize. -/
inductive PageSize where
  | SIZE_4KB
  | SIZE_16KB
  | SIZE_64KB
  | SIZE_2MB
  | SIZE_32MB
  | SIZE_512MB
  | SIZE_1GB
deriving DecidableEq, Repr

/-- Byte value carried by each PageSize enumerator in smmu_types.h. -/
def PageSize.bytes : PageSize → Nat
  | .SIZE_4KB => 0x1000
  | .SIZE_16KB => 0x4000
  | .SIZE_64KB => 0x10000
  | .SIZE_2MB => 0x200000
  | .SIZE_32MB => 0x2000000
  | .SIZE_512MB => 0x20000000
  | .SIZE_1GB => 0x40000000

/-- Translation stages (enum TranslationStage). -/
inductive TranslationStage where
  | STAGE1
  | STAGE2
  | STAGE1_AND_STAGE2
deriving DecidableEq, Repr

/-- Memory attribute types (enum MemoryType). -/
inductive MemoryType where
  | DEVICE_nGnRnE
  | DEVICE_nGnRE
  | DEVICE_nGRE
  | DEVICE_GRE
  | NORMAL_NC
  | NORMAL_WT
  | NORMAL_WB
deriving DecidableEq, Repr

/-- Access permissions (enum AccessPermission). -/
inductive AccessPermission where
  | NONE
  | READ_ONLY
  | WRITE_ONLY
  | READ_WRITE
deriving DecidableEq, Repr

/-- Fault types (enum FaultType). -/
inductive FaultType where
  | NONE
  | TRANSLATION_FAULT
  | PERMISSION_FAULT
  | ACCESS_FAULT
  | ADDRESS_SIZE_FAULT
  | TLB_CONFLICT_FAULT
  | UNSUPPORTED_UPSTREAM_TRANSACTION
deriving DecidableEq, Repr

/-- Command types for the command queue (enum CommandType). -/
inductive CommandType where
  | CMD_SYNC
  | CMD_PREFETCH_CONFIG
  | CMD_PREFETCH_ADDR
  | CMD_CFGI_STE
  | CMD_CFGI_CD
  | CMD_CFGI_ALL
  | CMD_TLBI_NH_ALL
  | CMD_TLBI_NH_ASID
  | CMD_TLBI_NH_VA
  | CMD_TLBI_S12_VMALL
deriving DecidableEq, Repr

/-- Result of a translation (struct TranslationResult).  The field defaults
are those of the default constructor in smmu_types.h: failure, address 0,
Normal write-back, no permission, cacheable true, not shareable. -/
structure TranslationResult where
  success : Bool := false
  physical_addr : Nat := 0
  memory_type : MemoryType := .NORMAL_WB
  permission : AccessPermission := .NONE
  cacheable : Bool := true
  shareable : Bool := false
  fault_reason : String := ""
deriving DecidableEq, Repr

/-- Decoded page-table descriptor (struct PageTableDescriptor), with the
default-constructor values of page_table.h. -/
structure PageTableDescriptor where
  valid : Bool := false
  is_table : Bool := false
  address : Nat := 0
  ap : AccessPermission := .NONE
  mem_attr : MemoryType := .NORMAL_WB
  shareable : Bool := false
  access_flag : Bool := false
  dirty : Bool := false
  contiguous : Bool := false
  privileged_execute_never : Bool := false
  execute_never : Bool := false
deriving DecidableEq, Repr

namespace PageTableWalker

/-- Page size by table level and granule, from PageTableWalker::get_page_size. -/
def get_page_size (level : Nat) (granule_size : Nat) : PageSize :=
  if granule_size == 12 then
    match level with
    | 0 => .SIZE_512MB
    | 1 => .SIZE_2MB
    | 2 => .SIZE_4KB
    | 3 => .SIZE_4KB
    | _ => .SIZE_4KB
  else if granule_size == 14 then
    match level with
    | 0 => .SIZE_1GB
    | 1 => .SIZE_32MB
    | 2 => .SIZE_16KB
    | 3 => .SIZE_16KB
    | _ => .SIZE_16KB
  else if granule_size == 16 then
    match level with
    | 1 => .SIZE_512MB
    | 2 => .SIZE_64KB
    | 3 => .SIZE_64KB
    | _ => .SIZE_64KB
  else
    .SIZE_4KB

/-- Index extraction from the virtual address, from
PageTableWalker::get_index_bits. -/
def get_index_bits (va : Nat) (level : Nat) (granule_size : Nat) : Nat :=
  let bits_per_level := granule_size - 3
  let shift := granule_size + (3 - level) * bits_per_level
  (va >>> shift) &&& ((1 <<< bits_per_level) - 1)

/-- Descriptor address in the table, from
PageTableWalker::get_descriptor_address (each descriptor is 8 bytes). -/
def get_descriptor_address (table_base : Nat) (index : Nat)
    (granule_size : Nat) : Nat :=
  table_base + index * 8

/-- Descriptor decoding, from PageTableWalker::parse_descriptor.  An invalid
descriptor (bit 0 clear) is returned as the default record, exactly as the
C++ returns the default-constructed result early. -/
def parse_descriptor (desc : Nat) (level : Nat) (granule_size : Nat) :
    PageTableDescriptor :=
  if (desc &&& 0x1) == 0 then
    {}
  else
    let desc_type := (desc >>> 1) &&& 0x1
    let is_table := if level < 3 then desc_type == 1 else false
    let address := desc &&& 0x0000FFFFFFFFF000
    let ap_bits := (desc >>> 6) &&& 0x3
    let ap : AccessPermission :=
      match ap_bits with
      | 0 => .READ_WRITE
      | 1 => .READ_WRITE
      | 2 => .READ_ONLY
      | 3 => .READ_ONLY
      | _ => .NONE
    let sh := (desc >>> 8) &&& 0x3
    let attr_idx := (desc >>> 2) &&& 0x7
    let mem_attr : MemoryType :=
      match attr_idx with
      | 0 => .DEVICE_nGnRnE
      | 1 => .DEVICE_nGnRE
      | 2 => .NORMAL_NC
      | 3 => .NORMAL_WT
      | _ => .NORMAL_WB
    { valid := true
      is_table := is_table
      address := address
      ap := ap
      mem_attr := mem_attr
      shareable := sh != 0
      access_flag := ((desc >>> 10) &&& 0x1) != 0
      dirty := ((desc >>> 51) &&& 0x1) != 0
      contiguous := ((desc >>> 52) &&& 0x1) != 0
      privileged_execute_never := ((desc >>> 53) &&& 0x1) != 0
      execute_never := ((desc >>> 54) &&& 0x1) != 0 }

/-- Walk loop of PageTableWalker::walk_table.  The C++ while loop runs while
current_level is at most max_level; the fuel argument is
max_level + 1 - current_level, so running out of fuel is exactly the loop
exiting past max_level. -/
def walk_loop (mem : Nat → Option Nat) (va : Nat) (granule_size : Nat) :
    Nat → Nat → Nat → TranslationResult
  | 0, _, _ => { fault_reason := "Translation fault: exceeded max level" }
  | fuel + 1, current_level, table_base =>
    let index := get_index_bits va current_level granule_size
    let desc_addr := get_descriptor_address table_base index granule_size
    match mem desc_addr with
    | none => { fault_reason := "Failed to read descriptor" }
    | some desc_value =>
      let desc := parse_descriptor desc_value current_level granule_size
      if !desc.valid then
        { fault_reason := "Translation fault: invalid descriptor" }
      else if !desc.is_table then
        let page_size := get_page_size current_level granule_size
        let page_mask := page_size.bytes - 1
        let offset := va &&& page_mask
        { success := true
          physical_addr := desc.address + offset
          permission := desc.ap
          memory_type := desc.mem_attr
          cacheable := (desc.mem_attr == .NORMAL_WB || desc.mem_attr == .NORMAL_WT)
          shareable := desc.shareable }
      else
        walk_loop mem va granule_size fuel (current_level + 1) desc.address

/-- Entry point of PageTableWalker::translate: pick the level schedule from
the granule and run the walk; any other granule fails immediately. -/
def translate (mem : Nat → Option Nat) (va : Nat) (ttb : Nat)
    (granule_size : Nat) (ips_bits : Nat) (stage : TranslationStage) :
    TranslationResult :=
  if granule_size == 12 then
    walk_loop mem va granule_size 4 0 ttb
  else if granule_size == 14 then
    walk_loop mem va granule_size 4 0 ttb
  else if granule_size == 16 then
    walk_loop mem va granule_size 3 1 ttb
  else
    { fault_reason := "Invalid granule size" }

end PageTableWalker

/-- Page-size table exactly as stated in claim C4 (and the table of spec
section 4.2), for comparison with the page sizes the code computes:
granule 12 maps levels 0..3 to 512 MiB, 2 MiB, 4 KiB, 4 KiB; granule 14
to 1 GiB, 32 MiB, 16 KiB, 16 KiB; granule 16 maps levels 1..3 to
512 MiB, 64 KiB, 64 KiB. -/
def claim_page_bytes (level : Nat) (granule_size : Nat) : Nat :=
  if granule_size == 12 then
    if level == 0 then 0x20000000
    else if level == 1 then 0x200000
    else 0x1000
  else if granule_size == 14 then
    if level == 0 then 0x40000000
    else if level == 1 then 0x2000000
    else 0x4000
  else
    if level == 1 then 0x20000000
    else 0x10000

/-- Key of a cached translation (struct TLBKey in tlb.h). -/
structure TLBKey where
  va_base : Nat
  stream_id : Nat
  asid : Nat
  vmid : Nat
deriving DecidableEq, Repr

/-- Cached translation entry (struct TLBEntry in tlb.h), with its
default-constructor values. -/
structure TLBEntry where
  va : Nat := 0
  pa : Nat := 0
  stream_id : Nat := 0
  asid : Nat := 0
  vmid : Nat := 0
  page_size : PageSize := .SIZE_4KB
  memory_type : MemoryType := .NORMAL_WB
  permission : AccessPermission := .NONE
  cacheable : Bool := false
  shareable : Bool := false
  stage : TranslationStage := .STAGE1
  timestamp : Nat := 0
deriving DecidableEq, Repr

/-- Lookup in an association list, modelling unordered_map find.  On lists
whose keys are pairwise distinct (the only states a C++ map can take) the
result does not depend on the order of the pairs. -/
def alistFind {kt vt : Type} [BEq kt] (m : List (kt × vt)) (k : kt) :
    Option vt :=
  match m.find? (fun p => p.1 == k) with
  | some p => some p.2
  | none => none

/-- Assignment m[k] = v in an association list, modelling the subscript
assignment of unordered_map: overwrite if the key is present, insert
otherwise. -/
def alistAssign {kt vt : Type} [BEq kt] (m : List (kt × vt)) (k : kt)
    (v : vt) : List (kt × vt) :=
  if (alistFind m k).isSome then
    m.map (fun p => if p.1 == k then (k, v) else p)
  else
    (k, v) :: m

/-- Erasure of a key from an association list, modelling unordered_map
erase(key): at most one pair is removed. -/
def alistErase {kt vt : Type} [BEq kt] (m : List (kt × vt)) (k : kt) :
    List (kt × vt) :=
  m.eraseP (fun p => p.1 == k)

/-- State of the translation cache (class TLB of tlb.h): capacity,
timestamp counter, hit and miss counters, the key-to-entry map and the
recency list (front = most recently used). -/
structure TLB where
  capacity : Nat
  timestamp_counter : Nat := 0
  hit_count : Nat := 0
  miss_count : Nat := 0
  entries : List (TLBKey × TLBEntry) := []
  lru_list : List TLBKey := []

/-- The TLB constructor: empty cache with the given capacity. -/
def TLB.empty (capacity : Nat) : TLB := { capacity := capacity }

/-- Page base of a virtual address, from TLB::get_page_base: the low bits
are cleared with the 64-bit mask that is the complement of size - 1. -/
def TLB.get_page_base (va : Nat) (page_size : PageSize) : Nat :=
  va &&& (2 ^ 64 - page_size.bytes)

/-- The page sizes probed by TLB::lookup (and TLB::invalidate_by_va), in
their order of probing. -/
def probe_sizes : List PageSize :=
  [.SIZE_1GB, .SIZE_2MB, .SIZE_64KB, .SIZE_4KB]

/-- Loop body of TLB::lookup: try each page size; on the first map hit,
move the key to the recency front and count a hit; if no size matches,
count a miss. -/
def TLB.lookup_loop (t : TLB) (va : Nat) (stream_id : Nat) (asid : Nat)
    (vmid : Nat) : List PageSize → Option TLBEntry × TLB
  | [] => (none, { t with miss_count := t.miss_count + 1 })
  | page_size :: rest =>
    let va_base := TLB.get_page_base va page_size
    let key : TLBKey := ⟨va_base, stream_id, asid, vmid⟩
    match alistFind t.entries key with
    | some e =>
      (some e,
       { t with
         lru_list := key :: t.lru_list.filter (fun x => !(x == key))
         hit_count := t.hit_count + 1 })
    | none => TLB.lookup_loop t va stream_id asid vmid rest

/-- TLB::lookup. -/
def TLB.lookup (t : TLB) (va : Nat) (stream_id : Nat) (asid : Nat)
    (vmid : Nat) : Option TLBEntry × TLB :=
  TLB.lookup_loop t va stream_id asid vmid probe_sizes

/-- TLB::evict_lru: drop the least recently used key (back of the recency
list) and its map entry; a no-op when the recency list is empty. -/
def TLB.evict_lru (t : TLB) : TLB :=
  match t.lru_list.getLast? with
  | none => t
  | some lru_key =>
    { t with
      lru_list := t.lru_list.dropLast
      entries := alistErase t.entries lru_key }

/-- The key under which TLB::insert stores an entry: page base of the
entry virtual address under the entry page size, plus the identifiers. -/
def TLB.entry_key (entry : TLBEntry) : TLBKey :=
  ⟨TLB.get_page_base entry.va entry.page_size, entry.stream_id,
   entry.asid, entry.vmid⟩

/-- TLB::insert: if the key exists, unlink it from the recency list; else
if the map is full, evict; then store the entry with a fresh timestamp and
push the key to the recency front. -/
def TLB.insert (t : TLB) (entry : TLBEntry) : TLB :=
  let key := TLB.entry_key entry
  let t1 :=
    if (alistFind t.entries key).isSome then
      { t with lru_list := t.lru_list.filter (fun x => !(x == key)) }
    else if t.entries.length >= t.capacity then
      TLB.evict_lru t
    else
      t
  { t1 with
    entries := alistAssign t1.entries key
      { entry with timestamp := t.timestamp_counter }
    lru_list := key :: t1.lru_list
    timestamp_counter := t.timestamp_counter + 1 }

/-- TLB::invalidate_all. -/
def TLB.invalidate_all (t : TLB) : TLB :=
  { t with entries := [], lru_list := [] }

/-- Common shape of the predicate-driven invalidations of tlb.cpp: every
map entry whose value satisfies the predicate is erased and its key is
removed from the recency list. -/
def TLB.invalidate_filter (t : TLB) (p : TLBEntry → Bool) : TLB :=
  let removed := (t.entries.filter (fun q => p q.2)).map Prod.fst
  { t with
    entries := t.entries.filter (fun q => !(p q.2))
    lru_list := t.lru_list.filter (fun k => !(removed.contains k)) }

/-- TLB::invalidate_by_asid. -/
def TLB.invalidate_by_asid (t : TLB) (asid : Nat) : TLB :=
  TLB.invalidate_filter t (fun e => e.asid == asid)

/-- TLB::invalidate_by_vmid. -/
def TLB.invalidate_by_vmid (t : TLB) (vmid : Nat) : TLB :=
  TLB.invalidate_filter t (fun e => e.vmid == vmid)

/-- TLB::invalidate_by_stream. -/
def TLB.invalidate_by_stream (t : TLB) (stream_id : Nat) : TLB :=
  TLB.invalidate_filter t (fun e => e.stream_id == stream_id)

/-- One page size of TLB::invalidate_by_va: remove entries with matching
asid whose own page base equals the page base of va under this size. -/
def TLB.invalidate_by_va_size (t : TLB) (va : Nat) (asid : Nat)
    (page_size : PageSize) : TLB :=
  TLB.invalidate_filter t
    (fun e => e.asid == asid &&
      TLB.get_page_base e.va e.page_size == TLB.get_page_base va page_size)

/-- TLB::invalidate_by_va: the per-size removal over all probe sizes. -/
def TLB.invalidate_by_va (t : TLB) (va : Nat) (asid : Nat) : TLB :=
  probe_sizes.foldl (fun acc ps => TLB.invalidate_by_va_size acc va asid ps) t

/-- Stream table entry (struct StreamTableEntry of smmu_types.h), with its
default-constructor values. -/
structure StreamTableEntry where
  valid : Bool := false
  s1_enabled : Bool := false
  s2_enabled : Bool := false
  s1_context_ptr : Nat := 0
  s2_translation_table_base : Nat := 0
  vmid : Nat := 0
  s1_format : Nat := 0
  s2_granule : Nat := 0
deriving DecidableEq, Repr

/-- Context descriptor (struct ContextDescriptor of smmu_types.h), with its
default-constructor values. -/
structure ContextDescriptor where
  valid : Bool := false
  translation_table_base : Nat := 0
  asid : Nat := 0
  translation_granule : Nat := 0
  ips : Nat := 0
  tg : Nat := 0
  sh : Nat := 0
  orgn : Nat := 0
  irgn : Nat := 0
deriving DecidableEq, Repr

/-- Event record (struct Event of smmu.h), with its default-constructor
values: fault type NONE and every numeric field zero (the description
string is value-initialized to the empty string). -/
structure Event where
  fault_type : FaultType := .NONE
  stream_id : Nat := 0
  asid : Nat := 0
  vmid : Nat := 0
  va : Nat := 0
  description : String := ""
  timestamp : Nat := 0
deriving DecidableEq, Repr

/-- Command record (struct Command of smmu.h).  The C++ payload is a union
of small structs; it is flattened here into one field per distinct union
member (cfgi_ste.stream_id and cfgi_cd.stream_id share a field, as do the
asid members, which is harmless because each command type reads only its
own members and the constructor zeroes the whole union). -/
structure Command where
  type : CommandType := .CMD_SYNC
  stream_id : Nat := 0
  asid : Nat := 0
  vmid : Nat := 0
  va : Nat := 0
deriving DecidableEq, Repr

/-- SMMU configuration (struct SMMUConfig of smmu.h) with its default
values. -/
structure SMMUConfig where
  tlb_size : Nat := 128
  stream_table_size : Nat := 256
  command_queue_size : Nat := 64
  event_queue_size : Nat := 64
  stage1_enabled : Bool := true
  stage2_enabled : Bool := false
deriving DecidableEq, Repr

/-- Statistics counters (struct SMMU::Statistics), zeroed by the SMMU
constructor. -/
structure Statistics where
  total_translations : Nat := 0
  tlb_hits : Nat := 0
  tlb_misses : Nat := 0
  page_table_walks : Nat := 0
  translation_faults : Nat := 0
  permission_faults : Nat := 0
  commands_processed : Nat := 0
  events_generated : Nat := 0
deriving DecidableEq, Repr

/-- Full state of the SMMU orchestrator (the data members of class SMMU).
The memory model reachable through the walker callback is the function
mem: a read of the 8-byte descriptor at an address either yields its value
or fails (models SimpleMemoryModel::read returning false). -/
structure SMMUState where
  config : SMMUConfig := {}
  enabled : Bool := false
  tlb : TLB
  mem : Nat → Option Nat
  stream_table : List (Nat × StreamTableEntry) := []
  context_descriptors : List (Nat × ContextDescriptor) := []
  command_queue : List Command := []
  event_queue : List Event := []
  stats : Statistics := {}
  timestamp_counter : Nat := 0

namespace SMMU

/-- Composite context-descriptor key, from SMMU::make_cd_key:
stream_id shifted left 16 bits or-ed with the asid. -/
def make_cd_key (stream_id : Nat) (asid : Nat) : Nat :=
  (stream_id <<< 16) ||| asid

/-- SMMU::configure_stream_table_entry. -/
def configure_stream_table_entry (s : SMMUState) (stream_id : Nat)
    (ste : StreamTableEntry) : SMMUState :=
  { s with stream_table := alistAssign s.stream_table stream_id ste }

/-- SMMU::get_stream_table_entry: stored value, or the default-invalid
entry when absent. -/
def get_stream_table_entry (s : SMMUState) (stream_id : Nat) :
    StreamTableEntry :=
  (alistFind s.stream_table stream_id).getD {}

/-- SMMU::configure_context_descriptor. -/
def configure_context_descriptor (s : SMMUState) (stream_id : Nat)
    (asid : Nat) (cd : ContextDescriptor) : SMMUState :=
  { s with context_descriptors :=
      alistAssign s.context_descriptors (make_cd_key stream_id asid) cd }

/-- SMMU::get_context_descriptor: stored value, or the default-invalid
descriptor when absent. -/
def get_context_descriptor (s : SMMUState) (stream_id : Nat) (asid : Nat) :
    ContextDescriptor :=
  (alistFind s.context_descriptors (make_cd_key stream_id asid)).getD {}

/-- SMMU::generate_event: append the event (with a fresh timestamp) unless
the event queue is full, in which case the event is dropped and neither
the counter nor the timestamp advances. -/
def generate_event (s : SMMUState) (fault_type : FaultType)
    (stream_id : Nat) (asid : Nat) (vmid : Nat) (va : Nat)
    (description : String) : SMMUState :=
  if s.event_queue.length < s.config.event_queue_size then
    { s with
      event_queue := s.event_queue ++
        [{ fault_type := fault_type, stream_id := stream_id, asid := asid,
           vmid := vmid, va := va, description := description,
           timestamp := s.timestamp_counter }]
      timestamp_counter := s.timestamp_counter + 1
      stats := { s.stats with
        events_generated := s.stats.events_generated + 1 } }
  else
    s

/-- Helper: bump the translation_faults counter (the stats_.translation_faults++
lines of smmu.cpp). -/
def bump_fault (s : SMMUState) : SMMUState :=
  { s with stats := { s.stats with
      translation_faults := s.stats.translation_faults + 1 } }

/-- Helper: bump the page_table_walks counter. -/
def bump_walk (s : SMMUState) : SMMUState :=
  { s with stats := { s.stats with
      page_table_walks := s.stats.page_table_walks + 1 } }

/-- SMMU::translate_stage1: check the context descriptor, run the stage-1
walk, count the walk, and on failure emit an event and count the fault. -/
def translate_stage1 (s : SMMUState) (va : Nat) (ste : StreamTableEntry)
    (cd : ContextDescriptor) : TranslationResult × SMMUState :=
  if !cd.valid then
    let result : TranslationResult :=
      { fault_reason := "Invalid context descriptor" }
    let s1 := generate_event s .TRANSLATION_FAULT 0 cd.asid ste.vmid va
      result.fault_reason
    (result, bump_fault s1)
  else
    let result := PageTableWalker.translate s.mem va
      cd.translation_table_base cd.translation_granule cd.ips .STAGE1
    let s1 := bump_walk s
    if !result.success then
      let s2 := generate_event s1 .TRANSLATION_FAULT 0 cd.asid ste.vmid va
        result.fault_reason
      (result, bump_fault s2)
    else
      (result, s1)

/-- SMMU::translate_stage2: pass-through when stage 2 is disabled in the
stream table entry, otherwise run the stage-2 walk with the hard-coded
48-bit address size, count the walk, and on failure emit an event and
count the fault. -/
def translate_stage2 (s : SMMUState) (ipa : Nat) (ste : StreamTableEntry) :
    TranslationResult × SMMUState :=
  if !ste.s2_enabled then
    ({ success := true, physical_addr := ipa }, s)
  else
    let result := PageTableWalker.translate s.mem ipa
      ste.s2_translation_table_base ste.s2_granule 48 .STAGE2
    let s1 := bump_walk s
    if !result.success then
      let s2 := generate_event s1 .TRANSLATION_FAULT 0 0 ste.vmid ipa
        result.fault_reason
      (result, bump_fault s2)
    else
      (result, s1)

/-- Staged part of SMMU::translate (step 3 of the function body): branch on
the enabled stages of the stream table entry.  Paths that fail return the
failure result; the caller skips the cache fill for them, which matches the
early returns of the C++ code. -/
def translate_stages (s : SMMUState) (va : Nat) (stream_id : Nat)
    (asid : Nat) (vmid : Nat) (ste : StreamTableEntry) :
    TranslationResult × SMMUState :=
  if ste.s1_enabled then
    let cd := get_context_descriptor s stream_id asid
    let r1 := translate_stage1 s va ste cd
    if !r1.1.success then
      r1
    else if ste.s2_enabled then
      translate_stage2 r1.2 r1.1.physical_addr ste
    else
      r1
  else if ste.s2_enabled then
    translate_stage2 s va ste
  else
    let result : TranslationResult :=
      { fault_reason := "No translation stages enabled" }
    let s2 := generate_event s .TRANSLATION_FAULT stream_id asid vmid va
      result.fault_reason
    (result, bump_fault s2)

/-- Steps 2 to 4 of SMMU::translate after a cache miss: fetch the stream
table entry (failing with an event if invalid), run the staged
translation, and on success install a cache entry for the request with
page size 4 KiB and the attributes of the result. -/
def translate_miss (s1 : SMMUState) (va : Nat) (stream_id : Nat)
    (asid : Nat) (vmid : Nat) : TranslationResult × SMMUState :=
  let ste := get_stream_table_entry s1 stream_id
  if !ste.valid then
    let result : TranslationResult :=
      { fault_reason := "Invalid stream table entry" }
    let s2 := generate_event s1 .TRANSLATION_FAULT stream_id asid vmid
      va result.fault_reason
    (result, bump_fault s2)
  else
    let staged := translate_stages s1 va stream_id asid vmid ste
    if staged.1.success then
      let entry : TLBEntry :=
        { va := va
          pa := staged.1.physical_addr
          stream_id := stream_id
          asid := asid
          vmid := vmid
          page_size := .SIZE_4KB
          memory_type := staged.1.memory_type
          permission := staged.1.permission
          cacheable := staged.1.cacheable
          shareable := staged.1.shareable
          stage := if ste.s1_enabled then .STAGE1 else .STAGE2
          timestamp := 0 }
      (staged.1, { staged.2 with tlb := TLB.insert staged.2.tlb entry })
    else
      staged

/-- SMMU::translate: count the call; fail if disabled; probe the cache and
return the cached result on a hit; on a miss continue with
translate_miss. -/
def translate (s0 : SMMUState) (va : Nat) (stream_id : Nat) (asid : Nat)
    (vmid : Nat) : TranslationResult × SMMUState :=
  let s := { s0 with stats := { s0.stats with
      total_translations := s0.stats.total_translations + 1 } }
  if !s.enabled then
    ({ fault_reason := "SMMU is disabled" }, s)
  else
    match TLB.lookup s.tlb va stream_id asid vmid with
    | (some tlb_entry, tlb1) =>
      let s1 := { s with
        tlb := tlb1
        stats := { s.stats with tlb_hits := s.stats.tlb_hits + 1 } }
      ({ success := true
         physical_addr := tlb_entry.pa
         memory_type := tlb_entry.memory_type
         permission := tlb_entry.permission
         cacheable := tlb_entry.cacheable
         shareable := tlb_entry.shareable }, s1)
    | (none, tlb1) =>
      let s1 := { s with
        tlb := tlb1
        stats := { s.stats with tlb_misses := s.stats.tlb_misses + 1 } }
      translate_miss s1 va stream_id asid vmid

/-- SMMU::submit_command: append to the command queue unless full (a full
queue silently drops the command). -/
def submit_command (s : SMMUState) (cmd : Command) : SMMUState :=
  if s.command_queue.length < s.config.command_queue_size then
    { s with command_queue := s.command_queue ++ [cmd] }
  else
    s

/-- SMMU::invalidate_tlb_all. -/
def invalidate_tlb_all (s : SMMUState) : SMMUState :=
  { s with tlb := TLB.invalidate_all s.tlb }

/-- SMMU::invalidate_tlb_by_asid. -/
def invalidate_tlb_by_asid (s : SMMUState) (asid : Nat) : SMMUState :=
  { s with tlb := TLB.invalidate_by_asid s.tlb asid }

/-- SMMU::invalidate_tlb_by_vmid. -/
def invalidate_tlb_by_vmid (s : SMMUState) (vmid : Nat) : SMMUState :=
  { s with tlb := TLB.invalidate_by_vmid s.tlb vmid }

/-- SMMU::invalidate_tlb_by_va. -/
def invalidate_tlb_by_va (s : SMMUState) (va : Nat) (asid : Nat) :
    SMMUState :=
  { s with tlb := TLB.invalidate_by_va s.tlb va asid }

/-- SMMU::invalidate_tlb_by_stream. -/
def invalidate_tlb_by_stream (s : SMMUState) (stream_id : Nat) :
    SMMUState :=
  { s with tlb := TLB.invalidate_by_stream s.tlb stream_id }

/-- SMMU::process_command: perform the invalidation selected by the command
type (Sync and the prefetch commands are no-ops) and always count the
command as processed. -/
def process_command (s : SMMUState) (cmd : Command) : SMMUState :=
  let s1 :=
    match cmd.type with
    | .CMD_SYNC => s
    | .CMD_PREFETCH_CONFIG => s
    | .CMD_PREFETCH_ADDR => s
    | .CMD_CFGI_STE => invalidate_tlb_by_stream s cmd.stream_id
    | .CMD_CFGI_CD => invalidate_tlb_by_asid s cmd.asid
    | .CMD_CFGI_ALL => invalidate_tlb_all s
    | .CMD_TLBI_NH_ALL => invalidate_tlb_all s
    | .CMD_TLBI_NH_ASID => invalidate_tlb_by_asid s cmd.asid
    | .CMD_TLBI_NH_VA => invalidate_tlb_by_va s cmd.va cmd.asid
    | .CMD_TLBI_S12_VMALL => invalidate_tlb_by_vmid s cmd.vmid
  { s1 with stats := { s1.stats with
      commands_processed := s1.stats.commands_processed + 1 } }

/-- Drain loop of SMMU::process_commands: pop and process front to back. -/
def process_commands_go : List Command → SMMUState → SMMUState
  | [], s => s
  | cmd :: rest, s => process_commands_go rest (process_command s cmd)

/-- SMMU::process_commands: process every queued command in FIFO order
until the queue is empty. -/
def process_commands (s : SMMUState) : SMMUState :=
  process_commands_go s.command_queue { s with command_queue := [] }

/-- SMMU::has_events. -/
def has_events (s : SMMUState) : Bool :=
  !s.event_queue.isEmpty

/-- SMMU::pop_event: return and remove the front event, or return the
default-constructed event when the queue is empty. -/
def pop_event (s : SMMUState) : Event × SMMUState :=
  match s.event_queue with
  | [] => ({}, s)
  | e :: rest => (e, { s with event_queue := rest })

/-- SMMU::enable. -/
def enable (s : SMMUState) : SMMUState := { s with enabled := true }

/-- SMMU::disable. -/
def disable (s : SMMUState) : SMMUState := { s with enabled := false }

end SMMU

/-- Effect of one failure on the fault bookkeeping, relative to a base
state: the translation_faults counter rises by exactly one, and exactly
one event is generated, meaning the event queue grows by one and the
events_generated counter rises by one when the queue had room, while a
full queue is left unchanged (the event is dropped). -/
def FaultEmitEffect (s s2 : SMMUState) : Prop :=
  s2.stats.translation_faults = s.stats.translation_faults + 1 ∧
  (if s.event_queue.length < s.config.event_queue_size then
    s2.event_queue.length = s.event_queue.length + 1 ∧
    s2.stats.events_generated = s.stats.events_generated + 1
  else
    s2.event_queue = s.event_queue ∧
    s2.stats.events_generated = s.stats.events_generated)

/-- The operations a client can perform on the translation cache, used to
quantify over arbitrary operation sequences. -/
inductive TLBOp where
  | lookup (va : Nat) (stream_id : Nat) (asid : Nat) (vmid : Nat)
  | insert (entry : TLBEntry)
  | invalidate_all
  | invalidate_by_asid (asid : Nat)
  | invalidate_by_vmid (vmid : Nat)
  | invalidate_by_va (va : Nat) (asid : Nat)
  | invalidate_by_stream (stream_id : Nat)

/-- State reached by applying one cache operation. -/
def TLB.applyOp (t : TLB) : TLBOp → TLB
  | .lookup va stream_id asid vmid =>
    (TLB.lookup t va stream_id asid vmid).2
  | .insert entry => TLB.insert t entry
  | .invalidate_all => TLB.invalidate_all t
  | .invalidate_by_asid asid => TLB.invalidate_by_asid t asid
  | .invalidate_by_vmid vmid => TLB.invalidate_by_vmid t vmid
  | .invalidate_by_va va asid => TLB.invalidate_by_va t va asid
  | .invalidate_by_stream stream_id => TLB.invalidate_by_stream t stream_id

/-- State reached by applying a sequence of cache operations in order. -/
def TLB.applyOps (t : TLB) (ops : List TLBOp) : TLB :=
  ops.foldl TLB.applyOp t

/-- Structural well-formedness of a cache state, maintained by every
operation from the empty cache: the keys of the entry map are, up to
order, exactly the recency list, and the recency list has no
duplicates. -/
def TLB.WF (t : TLB) : Prop :=
  (t.entries.map Prod.fst).Perm t.lru_list ∧ t.lru_list.Nodup

/-- Concrete fixture: an enabled SMMU with no stream table entries and an
empty memory, used to exercise concrete failing translations. -/
def bare_enabled_smmu : SMMUState :=
  { config := {}, enabled := true, tlb := TLB.empty 128,
    mem := fun _ => none }

/-- Concrete fixture memory: one valid level-0 block descriptor at
address 0x2000 (value 0x40000011: valid, block, output address
0x40000000, memory-attribute index 4 meaning Normal write-back,
read-write). -/
def demo_mem : Nat → Option Nat :=
  fun a => if a = 0x2000 then some 0x40000011 else none

/-- Concrete fixture: an enabled SMMU where stream 7 is stage-1 only,
with context (7, 1) using granule 12 and table base 0x2000 over
demo_mem, so every translation of a low address resolves through the
512 MiB block. -/
def configured_smmu : SMMUState :=
  { config := {}
    enabled := true
    tlb := TLB.empty 128
    mem := demo_mem
    stream_table := [(7, { valid := true, s1_enabled := true })]
    context_descriptors :=
      [(SMMU.make_cd_key 7 1,
        { valid := true, translation_table_base := 0x2000,
          translation_granule := 12, ips := 48 })] }

/-- Concrete fixture: an SMMU with one command already sitting in the
command queue (a Sync with zeroed payload). -/
def prequeued_smmu : SMMUState :=
  { config := {}, tlb := TLB.empty 128, mem := fun _ => none,
    command_queue := [{}] }

/-
General lemmas about the association-list operations and the cache
lookup loop, shared by several claims below.
-/

theorem alistFind_eq_none_iff {kt vt : Type} [BEq kt] [LawfulBEq kt]
    (m : List (kt × vt)) (k : kt) :
    alistFind m k = none ↔ ∀ p ∈ m, p.1 ≠ k := by
  unfold alistFind
  cases hf : m.find? (fun p => p.1 == k) with
  | some p =>
    simp only [reduceCtorEq, false_iff, not_forall]
    have hp := List.find?_some hf
    have hm := List.mem_of_find?_eq_some hf
    exact ⟨p, hm, by simpa using hp⟩
  | none =>
    simp only [true_iff]
    intro p hp
    have := List.find?_eq_none.mp hf p hp
    simpa using this

theorem alistFind_cons {kt vt : Type} [BEq kt] (k1 : kt) (v1 : vt)
    (m : List (kt × vt)) (k : kt) :
    alistFind ((k1, v1) :: m) k
      = if k1 == k then some v1 else alistFind m k := by
  unfold alistFind
  rw [List.find?_cons]
  by_cases h : k1 == k
  · simp [h]
  · simp [h]

theorem alistFind_none_of_sublist {kt vt : Type} [BEq kt] [LawfulBEq kt]
    (m m2 : List (kt × vt)) (k : kt) (hs : m2.Sublist m)
    (h : alistFind m k = none) : alistFind m2 k = none := by
  rw [alistFind_eq_none_iff] at h ⊢
  intro p hp
  exact h p (hs.subset hp)

/-- The lookup loop leaves the entry map unchanged. -/
theorem lookup_loop_entries (sizes : List PageSize) (t : TLB)
    (va stream_id asid vmid : Nat) :
    ((TLB.lookup_loop t va stream_id asid vmid sizes).2).entries
      = t.entries := by
  induction sizes with
  | nil => rfl
  | cons ps rest ih =>
    unfold TLB.lookup_loop
    dsimp only
    cases alistFind t.entries
        ⟨TLB.get_page_base va ps, stream_id, asid, vmid⟩ with
    | some e => rfl
    | none => exact ih

/-- The lookup loop leaves the capacity unchanged. -/
theorem lookup_loop_capacity (sizes : List PageSize) (t : TLB)
    (va stream_id asid vmid : Nat) :
    ((TLB.lookup_loop t va stream_id asid vmid sizes).2).capacity
      = t.capacity := by
  induction sizes with
  | nil => rfl
  | cons ps rest ih =>
    unfold TLB.lookup_loop
    dsimp only
    cases alistFind t.entries
        ⟨TLB.get_page_base va ps, stream_id, asid, vmid⟩ with
    | some e => rfl
    | none => exact ih

/-- The lookup loop leaves the timestamp counter unchanged. -/
theorem lookup_loop_timestamp (sizes : List PageSize) (t : TLB)
    (va stream_id asid vmid : Nat) :
    ((TLB.lookup_loop t va stream_id asid vmid sizes).2).timestamp_counter
      = t.timestamp_counter := by
  induction sizes with
  | nil => rfl
  | cons ps rest ih =>
    unfold TLB.lookup_loop
    dsimp only
    cases alistFind t.entries
        ⟨TLB.get_page_base va ps, stream_id, asid, vmid⟩ with
    | some e => rfl
    | none => exact ih

/-- The entry returned by the lookup loop depends only on the entry map. -/
theorem lookup_loop_fst_congr (sizes : List PageSize) (t t2 : TLB)
    (va stream_id asid vmid : Nat) (he : t.entries = t2.entries) :
    (TLB.lookup_loop t va stream_id asid vmid sizes).1
      = (TLB.lookup_loop t2 va stream_id asid vmid sizes).1 := by
  induction sizes with
  | nil => rfl
  | cons ps rest ih =>
    unfold TLB.lookup_loop
    dsimp only
    rw [he]
    cases alistFind t2.entries
        ⟨TLB.get_page_base va ps, stream_id, asid, vmid⟩ with
    | some e => rfl
    | none => exact ih

/-- A lookup miss means no probed key is in the entry map. -/
theorem lookup_loop_none_find (sizes : List PageSize) (t : TLB)
    (va stream_id asid vmid : Nat)
    (h : (TLB.lookup_loop t va stream_id asid vmid sizes).1 = none) :
    ∀ ps ∈ sizes,
      alistFind t.entries
        ⟨TLB.get_page_base va ps, stream_id, asid, vmid⟩ = none := by
  induction sizes with
  | nil => intro ps hps; cases hps
  | cons ps0 rest ih =>
    intro ps hps
    unfold TLB.lookup_loop at h
    dsimp only at h
    cases hf : alistFind t.entries
        ⟨TLB.get_page_base va ps0, stream_id, asid, vmid⟩ with
    | some e => rw [hf] at h; cases h
    | none =>
      rw [hf] at h
      rcases List.mem_cons.mp hps with heq | hmem
      · subst heq; exact hf
      · exact ih h ps hmem

/-- If the entry map starts with a pair whose key is probed at some size
and no probed key occurs in the rest of the map, the lookup loop returns
exactly that pair's value. -/
theorem lookup_loop_cons_hit (sizes : List PageSize) (t : TLB)
    (va stream_id asid vmid : Nat) (K : TLBKey) (v : TLBEntry)
    (rest : List (TLBKey × TLBEntry))
    (he : t.entries = (K, v) :: rest)
    (hhit : ∃ ps ∈ sizes,
      (⟨TLB.get_page_base va ps, stream_id, asid, vmid⟩ : TLBKey) = K)
    (hrest : ∀ ps ∈ sizes,
      alistFind rest
        ⟨TLB.get_page_base va ps, stream_id, asid, vmid⟩ = none) :
    (TLB.lookup_loop t va stream_id asid vmid sizes).1 = some v := by
  induction sizes with
  | nil => rcases hhit with ⟨ps, hps, _⟩; cases hps
  | cons ps0 rest0 ih =>
    unfold TLB.lookup_loop
    dsimp only
    rw [he, alistFind_cons]
    by_cases hk : K = (⟨TLB.get_page_base va ps0, stream_id, asid, vmid⟩ : TLBKey)
    · simp [hk]
    · have hbeq : (K == (⟨TLB.get_page_base va ps0, stream_id, asid,
          vmid⟩ : TLBKey)) = false := by
        simpa using hk
      rw [hbeq]
      have hr0 := hrest ps0 (List.mem_cons_self ps0 rest0)
      rw [hr0]
      have hhit2 : ∃ ps ∈ rest0,
          (⟨TLB.get_page_base va ps, stream_id, asid, vmid⟩ : TLBKey) = K := by
        rcases hhit with ⟨ps, hps, hkey⟩
        rcases List.mem_cons.mp hps with heq | hmem
        · subst heq; exact absurd hkey.symm hk
        · exact ⟨ps, hmem, hkey⟩
      exact ih hhit2 (fun ps hps => hrest ps (List.mem_cons_of_mem ps0 hps))

/-- Shape of the entry map after inserting an entry whose key is absent:
the new pair is at the front, and every key absent before stays absent in
the tail. -/
theorem insert_entries_of_find_none (t : TLB) (entry : TLBEntry)
    (hnone : alistFind t.entries (TLB.entry_key entry) = none) :
    ∃ rest : List (TLBKey × TLBEntry),
      (TLB.insert t entry).entries =
        (TLB.entry_key entry,
          { entry with timestamp := t.timestamp_counter }) :: rest ∧
      (∀ k, alistFind t.entries k = none → alistFind rest k = none) := by
  unfold TLB.insert
  dsimp only
  rw [hnone]
  simp only [Option.isSome_none, Bool.false_eq_true, if_false]
  by_cases hlen : t.entries.length >= t.capacity
  · simp only [hlen, if_true]
    refine ⟨(TLB.evict_lru t).entries, ?_, ?_⟩
    · have hnone2 : alistFind (TLB.evict_lru t).entries
          (TLB.entry_key entry) = none := by
        unfold TLB.evict_lru
        cases t.lru_list.getLast? with
        | none => exact hnone
        | some k0 =>
          exact alistFind_none_of_sublist _ _ _
            (List.eraseP_sublist t.entries) hnone
      unfold alistAssign
      rw [hnone2]
      simp
    · intro k hk
      unfold TLB.evict_lru
      cases t.lru_list.getLast? with
      | none => exact hk
      | some k0 =>
        exact alistFind_none_of_sublist _ _ _
          (List.eraseP_sublist t.entries) hk
  · simp only [hlen, if_false]
    refine ⟨t.entries, ?_, fun k hk => hk⟩
    unfold alistAssign
    rw [hnone]
    simp

/-- Inserting an entry whose key is absent makes that key map to the
entry stamped with the pre-insertion timestamp counter. -/
theorem alistFind_insert_self (t : TLB) (entry : TLBEntry)
    (hnone : alistFind t.entries (TLB.entry_key entry) = none) :
    alistFind (TLB.insert t entry).entries (TLB.entry_key entry)
      = some { entry with timestamp := t.timestamp_counter } := by
  obtain ⟨rest, hsh, _⟩ := insert_entries_of_find_none t entry hnone
  rw [hsh, alistFind_cons]
  simp

/-
Lemmas about the recency list and entry map used for the capacity and
eviction claims.
-/

/-- A key found in the map is among the map keys. -/
theorem alistFind_some_mem {kt vt : Type} [BEq kt] [LawfulBEq kt]
    (m : List (kt × vt)) (k : kt) (v : vt)
    (h : alistFind m k = some v) : k ∈ m.map Prod.fst := by
  unfold alistFind at h
  cases hf : m.find? (fun p => p.1 == k) with
  | none => rw [hf] at h; cases h
  | some p =>
    have hp := List.find?_some hf
    have hm := List.mem_of_find?_eq_some hf
    have : p.1 = k := by simpa using hp
    rw [← this]
    exact List.mem_map_of_mem Prod.fst hm

/-- A key absent from the map keys is not found. -/
theorem alistFind_eq_none_of_not_mem {kt vt : Type} [BEq kt] [LawfulBEq kt]
    (m : List (kt × vt)) (k : kt) (h : k ∉ m.map Prod.fst) :
    alistFind m k = none := by
  rw [alistFind_eq_none_iff]
  intro p hp hpk
  exact h (hpk ▸ List.mem_map_of_mem Prod.fst hp)

/-- Moving a present key of a duplicate-free list to the front is a
permutation (the C++ list remove plus push_front). -/
theorem perm_cons_filter_ne (l : List TLBKey) (k : TLBKey)
    (hn : l.Nodup) (hk : k ∈ l) :
    (k :: l.filter (fun x => !(x == k))).Perm l := by
  induction l with
  | nil => cases hk
  | cons a l ih =>
    by_cases hak : a = k
    · subst hak
      have hnotin : a ∉ l := (List.nodup_cons.mp hn).1
      have hfl : l.filter (fun x => !(x == a)) = l := by
        refine List.filter_eq_self.mpr ?_
        intro x hx
        have : x ≠ a := fun hxa => hnotin (hxa ▸ hx)
        simp [this]
      simp [hfl]
    · have hkl : k ∈ l := by
        rcases List.mem_cons.mp hk with h | h
        · exact absurd h.symm hak
        · exact h
      have hfl : (a :: l).filter (fun x => !(x == k))
          = a :: l.filter (fun x => !(x == k)) := by
        simp [List.filter_cons, hak]
      rw [hfl]
      exact (List.Perm.swap a k _).trans
        (List.Perm.cons a (ih (List.nodup_cons.mp hn).2 hkl))

/-- Any list with a member is, up to permutation, that member in front of
the list with its first occurrence erased. -/
theorem perm_cons_eraseP (l : List TLBKey) (k : TLBKey) (hk : k ∈ l) :
    l.Perm (k :: l.eraseP (fun x => x == k)) := by
  induction l with
  | nil => cases hk
  | cons a l ih =>
    by_cases hak : a = k
    · subst hak
      simp [List.eraseP_cons]
    · have hkl : k ∈ l := by
        rcases List.mem_cons.mp hk with h | h
        · exact absurd h.symm hak
        · exact h
      have : (a :: l).eraseP (fun x => x == k)
          = a :: l.eraseP (fun x => x == k) := by
        simp [List.eraseP_cons, hak]
      rw [this]
      exact (List.Perm.cons a (ih hkl)).trans (List.Perm.swap k a _)

/-- Erasing a key from the entry map erases it from the key list. -/
theorem map_fst_alistErase (m : List (TLBKey × TLBEntry)) (k : TLBKey) :
    (alistErase m k).map Prod.fst
      = (m.map Prod.fst).eraseP (fun x => x == k) := by
  induction m with
  | nil => rfl
  | cons p m ih =>
    unfold alistErase at ih ⊢
    cases hb : (p.1 == k) with
    | true => simp [List.eraseP_cons, hb]
    | false => simp [List.eraseP_cons, hb, ih]

/-- Erasing the key sitting at the end of the key list (and nowhere
else) drops exactly that last pair. -/
theorem alistErase_last_key (m : List (TLBKey × TLBEntry))
    (r : List TLBKey) (kl : TLBKey)
    (hm : m.map Prod.fst = r ++ [kl]) (hkl : kl ∉ r) :
    (alistErase m kl).map Prod.fst = r := by
  rw [map_fst_alistErase, hm]
  rw [List.eraseP_append_right [kl] ?hall]
  case hall =>
    intro b hb
    have hbk : b ≠ kl := fun hbkl => hkl (hbkl ▸ hb)
    simp [hbk]
  simp

/-- Overwriting an existing key leaves the key list unchanged. -/
theorem map_fst_alistAssign_some (m : List (TLBKey × TLBEntry))
    (k : TLBKey) (v : TLBEntry) (h : (alistFind m k).isSome = true) :
    (alistAssign m k v).map Prod.fst = m.map Prod.fst := by
  unfold alistAssign
  rw [if_pos h, List.map_map]
  refine List.map_congr_left ?_
  intro p hp
  show (if (p.1 == k) = true then (k, v) else p).1 = p.1
  split
  · next hcond =>
    have hpk : p.1 = k := by simpa using hcond
    simp [hpk]
  · rfl

/-- Filtering through a predicate on the key commutes with taking keys. -/
theorem map_fst_filter_key (m : List (TLBKey × TLBEntry))
    (pr : TLBKey → Bool) :
    (m.filter (fun q => pr q.1)).map Prod.fst
      = (m.map Prod.fst).filter pr := by
  induction m with
  | nil => rfl
  | cons p m ih =>
    by_cases hp : pr p.1 = true
    · simp [List.filter_cons, hp, ih]
    · simp [List.filter_cons, hp, ih]

/-- Dropping the last element of a reversed list reverses the tail. -/
theorem dropLast_reverse_eq_reverse_tail (l : List TLBKey) :
    l.reverse.dropLast = l.tail.reverse := by
  cases l with
  | nil => rfl
  | cons a l => simp [List.reverse_cons, List.dropLast_concat]

/-- The TLB insert operation keeps the configured capacity. -/
theorem insert_capacity (t : TLB) (entry : TLBEntry) :
    (TLB.insert t entry).capacity = t.capacity := by
  unfold TLB.insert
  dsimp only
  split
  · rfl
  · split
    · unfold TLB.evict_lru
      cases t.lru_list.getLast? with
      | none => rfl
      | some k => rfl
    · rfl

/-- Assigning an absent key prepends the new pair. -/
theorem alistAssign_none_eq {kt vt : Type} [BEq kt] (m : List (kt × vt))
    (k : kt) (v : vt) (h : alistFind m k = none) :
    alistAssign m k v = (k, v) :: m := by
  unfold alistAssign
  rw [h]
  simp

/-- Overwriting a present key keeps the number of entries. -/
theorem alistAssign_some_length {kt vt : Type} [BEq kt]
    (m : List (kt × vt)) (k : kt) (v : vt)
    (h : (alistFind m k).isSome = true) :
    (alistAssign m k v).length = m.length := by
  unfold alistAssign
  rw [if_pos h]
  simp

/-- The empty cache is well formed. -/
theorem WF_empty (N : Nat) : TLB.WF (TLB.empty N) :=
  ⟨List.Perm.refl _, List.nodup_nil⟩

/-- The lookup loop preserves cache well-formedness. -/
theorem lookup_loop_WF (sizes : List PageSize) (t : TLB)
    (va sid asid vmid : Nat) (hwf : TLB.WF t) :
    TLB.WF ((TLB.lookup_loop t va sid asid vmid sizes).2) := by
  induction sizes with
  | nil => exact hwf
  | cons ps rest ih =>
    unfold TLB.lookup_loop
    dsimp only
    cases hf : alistFind t.entries
        ⟨TLB.get_page_base va ps, sid, asid, vmid⟩ with
    | none => exact ih
    | some e =>
      obtain ⟨hperm, hnodup⟩ := hwf
      have hkK := alistFind_some_mem t.entries _ e hf
      have hkL : (⟨TLB.get_page_base va ps, sid, asid, vmid⟩ : TLBKey)
          ∈ t.lru_list := hperm.mem_iff.mp hkK
      constructor
      · exact hperm.trans (perm_cons_filter_ne t.lru_list _ hnodup hkL).symm
      · refine List.nodup_cons.mpr ⟨?_, hnodup.filter _⟩
        intro hm
        have := (List.mem_filter.mp hm).2
        simp at this

/-- The predicate-driven invalidation preserves well-formedness and can
only shrink the entry map. -/
theorem invalidate_filter_WF (t : TLB) (p : TLBEntry → Bool)
    (hwf : TLB.WF t) :
    TLB.WF (TLB.invalidate_filter t p) ∧
    (TLB.invalidate_filter t p).entries.length ≤ t.entries.length ∧
    (TLB.invalidate_filter t p).capacity = t.capacity := by
  obtain ⟨hperm, hnodup⟩ := hwf
  have hKnodup : (t.entries.map Prod.fst).Nodup :=
    hperm.nodup_iff.mpr hnodup
  unfold TLB.invalidate_filter
  dsimp only
  have hpt : ∀ q ∈ t.entries,
      (!(p q.2)) = (!(((t.entries.filter (fun q => p q.2)).map
        Prod.fst).contains q.1)) := by
    intro q hq
    by_cases hpq : p q.2 = true
    · have hin : q.1 ∈ (t.entries.filter (fun q => p q.2)).map Prod.fst :=
        List.mem_map_of_mem _ (List.mem_filter.mpr ⟨hq, hpq⟩)
      have hcon : ((t.entries.filter (fun q => p q.2)).map
          Prod.fst).contains q.1 = true :=
        List.elem_eq_true_of_mem hin
      rw [hpq, hcon]
    · have hpq' : p q.2 = false := by
        cases hpp : p q.2
        · rfl
        · exact absurd hpp hpq
      have hnotR : q.1 ∉ (t.entries.filter (fun q => p q.2)).map
          Prod.fst := by
        intro hmem
        rcases List.mem_map.mp hmem with ⟨q2, hq2, hqq⟩
        have hq2E := (List.mem_filter.mp hq2).1
        have hq2p := (List.mem_filter.mp hq2).2
        have heq2 : q2 = q := List.inj_on_of_nodup_map hKnodup hq2E hq hqq
        rw [heq2] at hq2p
        exact hpq hq2p
      have hcon : ((t.entries.filter (fun q => p q.2)).map
          Prod.fst).contains q.1 = false := by
        cases hc : ((t.entries.filter (fun q => p q.2)).map
            Prod.fst).contains q.1
        · rfl
        · exact absurd (List.mem_of_elem_eq_true hc) hnotR
      rw [hpq', hcon]
  have hfilter_eq : t.entries.filter (fun q => !(p q.2))
      = t.entries.filter (fun q =>
          !(((t.entries.filter (fun q => p q.2)).map
            Prod.fst).contains q.1)) :=
    List.filter_congr hpt
  have hgoal : ((t.entries.filter (fun q => !(p q.2))).map Prod.fst).Perm
      (t.lru_list.filter (fun k =>
        !(((t.entries.filter (fun q => p q.2)).map
          Prod.fst).contains k))) := by
    rw [hfilter_eq, map_fst_filter_key t.entries (fun k =>
      !(((t.entries.filter (fun q => p q.2)).map Prod.fst).contains k))]
    exact hperm.filter _
  exact ⟨⟨hgoal, hnodup.filter _⟩, List.length_filter_le _ _, rfl⟩

/-- The by-va invalidation (a fold of filters) preserves well-formedness
and can only shrink the entry map. -/
theorem invalidate_by_va_WF (t : TLB) (va asid : Nat) (hwf : TLB.WF t) :
    TLB.WF (TLB.invalidate_by_va t va asid) ∧
    (TLB.invalidate_by_va t va asid).entries.length
      ≤ t.entries.length ∧
    (TLB.invalidate_by_va t va asid).capacity = t.capacity := by
  have step : ∀ (l : List PageSize) (t0 : TLB), TLB.WF t0 →
      TLB.WF (l.foldl
        (fun acc ps => TLB.invalidate_by_va_size acc va asid ps) t0) ∧
      (l.foldl (fun acc ps => TLB.invalidate_by_va_size acc va asid ps)
        t0).entries.length ≤ t0.entries.length ∧
      (l.foldl (fun acc ps => TLB.invalidate_by_va_size acc va asid ps)
        t0).capacity = t0.capacity := by
    intro l
    induction l with
    | nil => intro t0 h0; exact ⟨h0, le_refl _, rfl⟩
    | cons ps rest ih =>
      intro t0 h0
      have h1 : TLB.WF (TLB.invalidate_by_va_size t0 va asid ps) ∧
          (TLB.invalidate_by_va_size t0 va asid ps).entries.length
            ≤ t0.entries.length ∧
          (TLB.invalidate_by_va_size t0 va asid ps).capacity
            = t0.capacity := invalidate_filter_WF t0 _ h0
      have h2 := ih (TLB.invalidate_by_va_size t0 va asid ps) h1.1
      rw [List.foldl_cons]
      exact ⟨h2.1, le_trans h2.2.1 h1.2.1, h2.2.2.trans h1.2.2⟩
  exact step probe_sizes t hwf

/-- The insert operation preserves well-formedness, and keeps the entry
count within a positive capacity. -/
theorem insert_WF (t : TLB) (entry : TLBEntry) (hwf : TLB.WF t)
    (hcap : t.entries.length ≤ t.capacity) (h1 : 1 ≤ t.capacity) :
    TLB.WF (TLB.insert t entry) ∧
    (TLB.insert t entry).entries.length ≤ t.capacity := by
  obtain ⟨hperm, hnodup⟩ := hwf
  unfold TLB.insert
  dsimp only
  by_cases hsome : (alistFind t.entries (TLB.entry_key entry)).isSome = true
  · rw [if_pos hsome]
    have hkK : TLB.entry_key entry ∈ t.entries.map Prod.fst := by
      cases hv : alistFind t.entries (TLB.entry_key entry) with
      | none => rw [hv] at hsome; simp at hsome
      | some v => exact alistFind_some_mem _ _ _ hv
    have hkL : TLB.entry_key entry ∈ t.lru_list := hperm.mem_iff.mp hkK
    have hlen := alistAssign_some_length t.entries (TLB.entry_key entry)
      { entry with timestamp := t.timestamp_counter } hsome
    refine ⟨⟨?_, ?_⟩, ?_⟩
    · show ((alistAssign t.entries (TLB.entry_key entry)
          { entry with timestamp := t.timestamp_counter }).map
            Prod.fst).Perm
        (TLB.entry_key entry ::
          t.lru_list.filter (fun x => !(x == TLB.entry_key entry)))
      rw [map_fst_alistAssign_some _ _ _ hsome]
      exact hperm.trans (perm_cons_filter_ne _ _ hnodup hkL).symm
    · show (TLB.entry_key entry ::
        t.lru_list.filter (fun x => !(x == TLB.entry_key entry))).Nodup
      refine List.nodup_cons.mpr ⟨?_, hnodup.filter _⟩
      intro hm
      have := (List.mem_filter.mp hm).2
      simp at this
    · show (alistAssign t.entries (TLB.entry_key entry)
        { entry with timestamp := t.timestamp_counter }).length ≤ t.capacity
      rw [hlen]
      exact hcap
  · rw [if_neg hsome]
    have hnone : alistFind t.entries (TLB.entry_key entry) = none := by
      cases hv : alistFind t.entries (TLB.entry_key entry) with
      | none => rfl
      | some v => rw [hv] at hsome; simp at hsome
    have hkK : TLB.entry_key entry ∉ t.entries.map Prod.fst := by
      intro hm
      rcases List.mem_map.mp hm with ⟨q, hq, hqk⟩
      exact ((alistFind_eq_none_iff t.entries
        (TLB.entry_key entry)).mp hnone) q hq hqk
    have hkL : TLB.entry_key entry ∉ t.lru_list := fun hm =>
      hkK (hperm.mem_iff.mpr hm)
    by_cases hlen : t.entries.length ≥ t.capacity
    · rw [if_pos hlen]
      have hlen_eq : t.entries.length = t.capacity := le_antisymm hcap hlen
      have hLlen : t.lru_list.length = t.entries.length := by
        simpa using hperm.length_eq.symm
      have hLne : t.lru_list ≠ [] := by
        intro h0
        rw [h0] at hLlen
        simp at hLlen
        omega
      unfold TLB.evict_lru
      cases hkl : t.lru_list.getLast? with
      | none => exact absurd (List.getLast?_eq_none_iff.mp hkl) hLne
      | some kl =>
        dsimp only
        have hklL : kl ∈ t.lru_list := List.mem_of_mem_getLast? hkl
        have hklK : kl ∈ t.entries.map Prod.fst := hperm.mem_iff.mpr hklL
        have h1' := perm_cons_eraseP (t.entries.map Prod.fst) kl hklK
        have hgl : t.lru_list.getLast hLne = kl := by
          have hq := List.getLast?_eq_getLast t.lru_list hLne
          rw [hq] at hkl
          exact Option.some.inj hkl
        have hLsplit : t.lru_list = t.lru_list.dropLast ++ [kl] := by
          rw [← hgl]
          exact (List.dropLast_append_getLast hLne).symm
        have h2' : t.lru_list.Perm (kl :: t.lru_list.dropLast) := by
          have hps := List.perm_append_singleton kl t.lru_list.dropLast
          rw [← hLsplit] at hps
          exact hps
        have hpermE : ((alistErase t.entries kl).map Prod.fst).Perm
            t.lru_list.dropLast := by
          rw [map_fst_alistErase]
          exact ((h1'.symm.trans hperm).trans h2').cons_inv
        have hnoneE : alistFind (alistErase t.entries kl)
            (TLB.entry_key entry) = none :=
          alistFind_none_of_sublist _ _ _ (List.eraseP_sublist _) hnone
        rw [alistAssign_none_eq _ _ _ hnoneE]
        have hdropnodup : t.lru_list.dropLast.Nodup :=
          hnodup.sublist (List.dropLast_sublist _)
        have hkdrop : TLB.entry_key entry ∉ t.lru_list.dropLast := fun hm =>
          hkL ((List.dropLast_sublist _).subset hm)
        have herased : (alistErase t.entries kl).length + 1
            = t.entries.length := by
          have hl1 := h1'.length_eq
          have hl2 : (alistErase t.entries kl).length
              = ((t.entries.map Prod.fst).eraseP
                  (fun x => x == kl)).length := by
            have := congrArg List.length (map_fst_alistErase t.entries kl)
            simpa using this
          simp only [List.length_cons, List.length_map] at hl1
          omega
        refine ⟨⟨?_, List.nodup_cons.mpr ⟨hkdrop, hdropnodup⟩⟩, ?_⟩
        · simp only [List.map_cons]
          exact hpermE.cons _
        · simp only [List.length_cons]
          omega
    · rw [if_neg hlen]
      rw [alistAssign_none_eq _ _ _ hnone]
      refine ⟨⟨?_, List.nodup_cons.mpr ⟨hkL, hnodup⟩⟩, ?_⟩
      · simp only [List.map_cons]
        exact hperm.cons _
      · simp only [List.length_cons]
        omega

/-- Every single cache operation preserves well-formedness, keeps the
entry count within the capacity, and leaves the capacity unchanged
(given a positive capacity). -/
theorem applyOp_preserves (t : TLB) (op : TLBOp) (hwf : TLB.WF t)
    (hcap : t.entries.length ≤ t.capacity) (h1 : 1 ≤ t.capacity) :
    TLB.WF (TLB.applyOp t op) ∧
    (TLB.applyOp t op).entries.length ≤ (TLB.applyOp t op).capacity ∧
    (TLB.applyOp t op).capacity = t.capacity := by
  cases op with
  | lookup va sid asid vmid =>
    refine ⟨lookup_loop_WF probe_sizes t va sid asid vmid hwf, ?_,
      lookup_loop_capacity probe_sizes t va sid asid vmid⟩
    show ((TLB.lookup_loop t va sid asid vmid probe_sizes).2).entries.length
      ≤ ((TLB.lookup_loop t va sid asid vmid probe_sizes).2).capacity
    rw [lookup_loop_entries, lookup_loop_capacity]
    exact hcap
  | insert e =>
    have h := insert_WF t e hwf hcap h1
    refine ⟨h.1, ?_, insert_capacity t e⟩
    show (TLB.insert t e).entries.length ≤ (TLB.insert t e).capacity
    rw [insert_capacity t e]
    exact h.2
  | invalidate_all =>
    exact ⟨⟨List.Perm.refl [], List.nodup_nil⟩, Nat.zero_le _, rfl⟩
  | invalidate_by_asid a =>
    have h := invalidate_filter_WF t (fun e => e.asid == a) hwf
    refine ⟨h.1, ?_, h.2.2⟩
    show (TLB.invalidate_filter t (fun e => e.asid == a)).entries.length
      ≤ (TLB.invalidate_filter t (fun e => e.asid == a)).capacity
    rw [h.2.2]
    exact le_trans h.2.1 hcap
  | invalidate_by_vmid v =>
    have h := invalidate_filter_WF t (fun e => e.vmid == v) hwf
    refine ⟨h.1, ?_, h.2.2⟩
    show (TLB.invalidate_filter t (fun e => e.vmid == v)).entries.length
      ≤ (TLB.invalidate_filter t (fun e => e.vmid == v)).capacity
    rw [h.2.2]
    exact le_trans h.2.1 hcap
  | invalidate_by_stream sid =>
    have h := invalidate_filter_WF t (fun e => e.stream_id == sid) hwf
    refine ⟨h.1, ?_, h.2.2⟩
    show (TLB.invalidate_filter t (fun e => e.stream_id == sid)).entries.length
      ≤ (TLB.invalidate_filter t (fun e => e.stream_id == sid)).capacity
    rw [h.2.2]
    exact le_trans h.2.1 hcap
  | invalidate_by_va va asid =>
    have h := invalidate_by_va_WF t va asid hwf
    refine ⟨h.1, ?_, h.2.2⟩
    show (TLB.invalidate_by_va t va asid).entries.length
      ≤ (TLB.invalidate_by_va t va asid).capacity
    rw [h.2.2]
    exact le_trans h.2.1 hcap

/-- Any sequence of cache operations preserves well-formedness, the
capacity bound on the entry count, and the capacity itself. -/
theorem applyOps_preserves (ops : List TLBOp) : ∀ (t : TLB), TLB.WF t →
    t.entries.length ≤ t.capacity → 1 ≤ t.capacity →
    TLB.WF (TLB.applyOps t ops) ∧
    (TLB.applyOps t ops).entries.length ≤ (TLB.applyOps t ops).capacity ∧
    (TLB.applyOps t ops).capacity = t.capacity := by
  induction ops with
  | nil => intro t hwf hcap h1; exact ⟨hwf, hcap, rfl⟩
  | cons op rest ih =>
    intro t hwf hcap h1
    have hstep := applyOp_preserves t op hwf hcap h1
    have hrec := ih (TLB.applyOp t op) hstep.1 hstep.2.1
      (by rw [hstep.2.2]; exact h1)
    exact ⟨hrec.1, hrec.2.1, hrec.2.2.trans hstep.2.2⟩

/-
Lemmas about the orchestrator state transformers: which state fields each
one preserves, and the bookkeeping effect of a failure.
-/

theorem generate_event_tlb (s : SMMUState) (ft : FaultType)
    (sid asid vmid va : Nat) (d : String) :
    (SMMU.generate_event s ft sid asid vmid va d).tlb = s.tlb := by
  unfold SMMU.generate_event
  split <;> rfl

theorem generate_event_enabled (s : SMMUState) (ft : FaultType)
    (sid asid vmid va : Nat) (d : String) :
    (SMMU.generate_event s ft sid asid vmid va d).enabled = s.enabled := by
  unfold SMMU.generate_event
  split <;> rfl

theorem bump_fault_tlb (s : SMMUState) : (SMMU.bump_fault s).tlb = s.tlb :=
  rfl

theorem bump_fault_enabled (s : SMMUState) :
    (SMMU.bump_fault s).enabled = s.enabled := rfl

theorem bump_walk_tlb (s : SMMUState) : (SMMU.bump_walk s).tlb = s.tlb :=
  rfl

theorem bump_walk_enabled (s : SMMUState) :
    (SMMU.bump_walk s).enabled = s.enabled := rfl

theorem translate_stage1_tlb (s : SMMUState) (va : Nat)
    (ste : StreamTableEntry) (cd : ContextDescriptor) :
    (SMMU.translate_stage1 s va ste cd).2.tlb = s.tlb := by
  unfold SMMU.translate_stage1
  dsimp only
  split
  · rw [bump_fault_tlb, generate_event_tlb]
  · split
    · rw [bump_fault_tlb, generate_event_tlb, bump_walk_tlb]
    · rw [bump_walk_tlb]

theorem translate_stage1_enabled (s : SMMUState) (va : Nat)
    (ste : StreamTableEntry) (cd : ContextDescriptor) :
    (SMMU.translate_stage1 s va ste cd).2.enabled = s.enabled := by
  unfold SMMU.translate_stage1
  dsimp only
  split
  · rw [bump_fault_enabled, generate_event_enabled]
  · split
    · rw [bump_fault_enabled, generate_event_enabled, bump_walk_enabled]
    · rw [bump_walk_enabled]

theorem translate_stage2_tlb (s : SMMUState) (ipa : Nat)
    (ste : StreamTableEntry) :
    (SMMU.translate_stage2 s ipa ste).2.tlb = s.tlb := by
  unfold SMMU.translate_stage2
  dsimp only
  split
  · rfl
  · split
    · rw [bump_fault_tlb, generate_event_tlb, bump_walk_tlb]
    · rw [bump_walk_tlb]

theorem translate_stage2_enabled (s : SMMUState) (ipa : Nat)
    (ste : StreamTableEntry) :
    (SMMU.translate_stage2 s ipa ste).2.enabled = s.enabled := by
  unfold SMMU.translate_stage2
  dsimp only
  split
  · rfl
  · split
    · rw [bump_fault_enabled, generate_event_enabled, bump_walk_enabled]
    · rw [bump_walk_enabled]

theorem translate_stages_tlb (s : SMMUState) (va sid asid vmid : Nat)
    (ste : StreamTableEntry) :
    (SMMU.translate_stages s va sid asid vmid ste).2.tlb = s.tlb := by
  unfold SMMU.translate_stages
  dsimp only
  split
  · split
    · rw [translate_stage1_tlb]
    · split
      · rw [translate_stage2_tlb, translate_stage1_tlb]
      · rw [translate_stage1_tlb]
  · split
    · rw [translate_stage2_tlb]
    · rw [bump_fault_tlb, generate_event_tlb]

theorem translate_stages_enabled (s : SMMUState) (va sid asid vmid : Nat)
    (ste : StreamTableEntry) :
    (SMMU.translate_stages s va sid asid vmid ste).2.enabled = s.enabled := by
  unfold SMMU.translate_stages
  dsimp only
  split
  · split
    · rw [translate_stage1_enabled]
    · split
      · rw [translate_stage2_enabled, translate_stage1_enabled]
      · rw [translate_stage1_enabled]
  · split
    · rw [translate_stage2_enabled]
    · rw [bump_fault_enabled, generate_event_enabled]

/-- Failing through generate_event plus the translation_faults increment
realizes the claimed per-failure bookkeeping relative to the state the
event was generated from. -/
theorem fault_emit_effect (s : SMMUState) (ft : FaultType)
    (sid asid vmid va : Nat) (d : String) :
    FaultEmitEffect s
      (SMMU.bump_fault (SMMU.generate_event s ft sid asid vmid va d)) := by
  unfold FaultEmitEffect SMMU.bump_fault SMMU.generate_event
  by_cases h : s.event_queue.length < s.config.event_queue_size
  · simp [h]
  · simp [h]

/-- The failure bookkeeping only looks at the event queue, the configured
queue depth and two counters, so it transports between base states that
agree on those. -/
theorem FaultEmitEffect_congr (s s0 s2 : SMMUState)
    (h1 : s.event_queue = s0.event_queue)
    (h2 : s.config.event_queue_size = s0.config.event_queue_size)
    (h3 : s.stats.translation_faults = s0.stats.translation_faults)
    (h4 : s.stats.events_generated = s0.stats.events_generated)
    (he : FaultEmitEffect s s2) : FaultEmitEffect s0 s2 := by
  unfold FaultEmitEffect at he ⊢
  rw [h1, h2, h3, h4] at he
  exact he

/-- A successful stage-1 translation only bumps the walk counter. -/
theorem translate_stage1_success_state (s : SMMUState) (va : Nat)
    (ste : StreamTableEntry) (cd : ContextDescriptor)
    (h : (SMMU.translate_stage1 s va ste cd).1.success = true) :
    (SMMU.translate_stage1 s va ste cd).2 = SMMU.bump_walk s := by
  unfold SMMU.translate_stage1 at h ⊢
  dsimp only at h ⊢
  by_cases hcd : (!cd.valid) = true
  · rw [if_pos hcd] at h
    simp at h
  · rw [if_neg hcd] at h ⊢
    by_cases hws : (!(PageTableWalker.translate s.mem va
        cd.translation_table_base cd.translation_granule cd.ips
        TranslationStage.STAGE1).success) = true
    · rw [if_pos hws] at h
      dsimp only at h
      simp only [Bool.not_eq_true'] at hws
      rw [hws] at h
      cases h
    · rw [if_neg hws]

/-- A failing stage-1 translation produces the per-failure bookkeeping. -/
theorem translate_stage1_fail_effect (s : SMMUState) (va : Nat)
    (ste : StreamTableEntry) (cd : ContextDescriptor)
    (h : (SMMU.translate_stage1 s va ste cd).1.success = false) :
    FaultEmitEffect s (SMMU.translate_stage1 s va ste cd).2 := by
  unfold SMMU.translate_stage1 at h ⊢
  dsimp only at h ⊢
  by_cases hcd : (!cd.valid) = true
  · rw [if_pos hcd]
    exact fault_emit_effect _ _ _ _ _ _ _
  · rw [if_neg hcd] at h ⊢
    by_cases hws : (!(PageTableWalker.translate s.mem va
        cd.translation_table_base cd.translation_granule cd.ips
        TranslationStage.STAGE1).success) = true
    · rw [if_pos hws]
      exact FaultEmitEffect_congr (SMMU.bump_walk s) s _ rfl rfl rfl rfl
        (fault_emit_effect _ _ _ _ _ _ _)
    · rw [if_neg hws] at h
      dsimp only at h
      simp only [Bool.not_eq_true, Bool.not_eq_false'] at hws
      rw [h] at hws
      cases hws

/-- A failing stage-2 translation produces the per-failure bookkeeping. -/
theorem translate_stage2_fail_effect (s : SMMUState) (ipa : Nat)
    (ste : StreamTableEntry)
    (h : (SMMU.translate_stage2 s ipa ste).1.success = false) :
    FaultEmitEffect s (SMMU.translate_stage2 s ipa ste).2 := by
  unfold SMMU.translate_stage2 at h ⊢
  dsimp only at h ⊢
  by_cases hs2 : (!ste.s2_enabled) = true
  · rw [if_pos hs2] at h
    simp at h
  · rw [if_neg hs2] at h ⊢
    by_cases hws : (!(PageTableWalker.translate s.mem ipa
        ste.s2_translation_table_base ste.s2_granule 48
        TranslationStage.STAGE2).success) = true
    · rw [if_pos hws]
      exact FaultEmitEffect_congr (SMMU.bump_walk s) s _ rfl rfl rfl rfl
        (fault_emit_effect _ _ _ _ _ _ _)
    · rw [if_neg hws] at h
      dsimp only at h
      simp only [Bool.not_eq_true, Bool.not_eq_false'] at hws
      rw [h] at hws
      cases hws

/-- A successful translation implies the unit was enabled. -/
theorem translate_success_enabled (s0 : SMMUState) (va sid asid vmid : Nat)
    (hs : (SMMU.translate s0 va sid asid vmid).1.success = true) :
    s0.enabled = true := by
  cases h0 : s0.enabled
  · unfold SMMU.translate at hs
    dsimp only at hs
    rw [h0] at hs
    simp at hs
  · rfl

/-- Reduction of SMMU::translate on a cache hit. -/
theorem translate_hit_eq (s0 : SMMUState) (va sid asid vmid : Nat)
    (e : TLBEntry) (tlb1 : TLB) (hen : s0.enabled = true)
    (hl : TLB.lookup s0.tlb va sid asid vmid = (some e, tlb1)) :
    SMMU.translate s0 va sid asid vmid =
      ({ success := true
         physical_addr := e.pa
         memory_type := e.memory_type
         permission := e.permission
         cacheable := e.cacheable
         shareable := e.shareable },
       { s0 with
         tlb := tlb1
         stats := { s0.stats with
           total_translations := s0.stats.total_translations + 1
           tlb_hits := s0.stats.tlb_hits + 1 } }) := by
  unfold SMMU.translate
  dsimp only
  rw [hen, hl]
  rfl

/-- Reduction of SMMU::translate on a cache miss, to the miss
continuation applied at the post-probe state. -/
theorem translate_miss_eq (s0 : SMMUState) (va sid asid vmid : Nat)
    (tlb1 : TLB) (hen : s0.enabled = true)
    (hl : TLB.lookup s0.tlb va sid asid vmid = (none, tlb1)) :
    SMMU.translate s0 va sid asid vmid =
      SMMU.translate_miss
        { s0 with
          tlb := tlb1
          stats := { s0.stats with
            total_translations := s0.stats.total_translations + 1
            tlb_misses := s0.stats.tlb_misses + 1 } } va sid asid vmid := by
  unfold SMMU.translate
  dsimp only
  rw [hen, hl]
  rfl

/-- A failing staged translation produces the per-failure bookkeeping. -/
theorem translate_stages_fail_effect (s : SMMUState) (va sid asid vmid : Nat)
    (ste : StreamTableEntry)
    (hf : (SMMU.translate_stages s va sid asid vmid ste).1.success = false) :
    FaultEmitEffect s (SMMU.translate_stages s va sid asid vmid ste).2 := by
  unfold SMMU.translate_stages at hf ⊢
  dsimp only at hf ⊢
  by_cases hs1 : ste.s1_enabled = true
  · rw [if_pos hs1] at hf ⊢
    by_cases hr1 : (!(SMMU.translate_stage1 s va ste
        (SMMU.get_context_descriptor s sid asid)).1.success) = true
    · rw [if_pos hr1]
      exact translate_stage1_fail_effect _ _ _ _
        (by simpa [Bool.not_eq_true'] using hr1)
    · rw [if_neg hr1] at hf ⊢
      have hr1t : (SMMU.translate_stage1 s va ste
          (SMMU.get_context_descriptor s sid asid)).1.success = true := by
        simpa [Bool.not_eq_true, Bool.not_eq_false'] using hr1
      by_cases hs2 : ste.s2_enabled = true
      · rw [if_pos hs2] at hf ⊢
        have h2 := translate_stage2_fail_effect _ _ _ hf
        have hst := translate_stage1_success_state s va ste _ hr1t
        exact FaultEmitEffect_congr _ s _ (by rw [hst]; rfl)
          (by rw [hst]; rfl) (by rw [hst]; rfl) (by rw [hst]; rfl) h2
      · rw [if_neg hs2] at hf
        rw [hr1t] at hf
        cases hf
  · rw [if_neg hs1] at hf ⊢
    by_cases hs2 : ste.s2_enabled = true
    · rw [if_pos hs2] at hf ⊢
      exact translate_stage2_fail_effect _ _ _ hf
    · rw [if_neg hs2]
      exact fault_emit_effect _ _ _ _ _ _ _

/-- A failing miss continuation produces the per-failure bookkeeping. -/
theorem translate_miss_fail_effect (s1 : SMMUState) (va sid asid vmid : Nat)
    (hf : (SMMU.translate_miss s1 va sid asid vmid).1.success = false) :
    FaultEmitEffect s1 (SMMU.translate_miss s1 va sid asid vmid).2 := by
  unfold SMMU.translate_miss at hf ⊢
  dsimp only at hf ⊢
  by_cases hste : (!(SMMU.get_stream_table_entry s1 sid).valid) = true
  · rw [if_pos hste]
    exact fault_emit_effect _ _ _ _ _ _ _
  · rw [if_neg hste] at hf ⊢
    by_cases hsucc : (SMMU.translate_stages s1 va sid asid vmid
        (SMMU.get_stream_table_entry s1 sid)).1.success = true
    · rw [if_pos hsucc] at hf
      dsimp only at hf
      rw [hsucc] at hf
      cases hf
    · rw [if_neg hsucc] at hf ⊢
      exact translate_stages_fail_effect _ _ _ _ _ _
        (by simpa [Bool.not_eq_true] using hsucc)

/-- A successful miss continuation went through a valid stream table
entry, returned the staged result and installed the 4 KiB cache entry of
the request on top of the staged state. -/
theorem translate_miss_success_eq (s1 : SMMUState) (va sid asid vmid : Nat)
    (hsucc : (SMMU.translate_miss s1 va sid asid vmid).1.success = true) :
    SMMU.translate_miss s1 va sid asid vmid =
      ((SMMU.translate_stages s1 va sid asid vmid
          (SMMU.get_stream_table_entry s1 sid)).1,
       { (SMMU.translate_stages s1 va sid asid vmid
            (SMMU.get_stream_table_entry s1 sid)).2 with
         tlb := TLB.insert
           (SMMU.translate_stages s1 va sid asid vmid
              (SMMU.get_stream_table_entry s1 sid)).2.tlb
           { va := va
             pa := (SMMU.translate_stages s1 va sid asid vmid
               (SMMU.get_stream_table_entry s1 sid)).1.physical_addr
             stream_id := sid
             asid := asid
             vmid := vmid
             page_size := .SIZE_4KB
             memory_type := (SMMU.translate_stages s1 va sid asid vmid
               (SMMU.get_stream_table_entry s1 sid)).1.memory_type
             permission := (SMMU.translate_stages s1 va sid asid vmid
               (SMMU.get_stream_table_entry s1 sid)).1.permission
             cacheable := (SMMU.translate_stages s1 va sid asid vmid
               (SMMU.get_stream_table_entry s1 sid)).1.cacheable
             shareable := (SMMU.translate_stages s1 va sid asid vmid
               (SMMU.get_stream_table_entry s1 sid)).1.shareable
             stage := if (SMMU.get_stream_table_entry s1 sid).s1_enabled
               then .STAGE1 else .STAGE2
             timestamp := 0 } }) ∧
    (SMMU.translate_stages s1 va sid asid vmid
        (SMMU.get_stream_table_entry s1 sid)).1.success = true := by
  unfold SMMU.translate_miss at hsucc ⊢
  dsimp only at hsucc ⊢
  by_cases hste : (!(SMMU.get_stream_table_entry s1 sid).valid) = true
  · rw [if_pos hste] at hsucc
    simp at hsucc
  · rw [if_neg hste] at hsucc ⊢
    by_cases hs : (SMMU.translate_stages s1 va sid asid vmid
        (SMMU.get_stream_table_entry s1 sid)).1.success = true
    · rw [if_pos hs]
      exact ⟨rfl, hs⟩
    · rw [if_neg hs] at hsucc
      exact absurd hsucc hs

/-- Looking up (va, stream, asid, vmid) right after inserting an entry
keyed to exactly that request at 4 KiB, in a cache where no probed key
was present before, returns the freshly inserted entry. -/
theorem lookup_after_insert (t : TLB) (entry : TLBEntry)
    (va sid asid vmid : Nat)
    (hkey : TLB.entry_key entry
      = ⟨TLB.get_page_base va PageSize.SIZE_4KB, sid, asid, vmid⟩)
    (hmissall : ∀ ps ∈ probe_sizes,
      alistFind t.entries
        ⟨TLB.get_page_base va ps, sid, asid, vmid⟩ = none) :
    (TLB.lookup (TLB.insert t entry) va sid asid vmid).1
      = some { entry with timestamp := t.timestamp_counter } := by
  have hnone4 : alistFind t.entries (TLB.entry_key entry) = none := by
    rw [hkey]
    exact hmissall PageSize.SIZE_4KB (by simp [probe_sizes])
  obtain ⟨rest, hsh, hpres⟩ := insert_entries_of_find_none t entry hnone4
  unfold TLB.lookup
  refine lookup_loop_cons_hit probe_sizes _ va sid asid vmid _ _ rest hsh
    ⟨PageSize.SIZE_4KB, by simp [probe_sizes], hkey.symm⟩ ?_
  intro ps hps
  exact hpres _ (hmissall ps hps)

/-- After a successful miss-path translation, an immediate identical call
hits the cache: the hit counter rises by one, no walk is added, and the
returned result carries the same fields. -/
theorem second_call_after_miss (s1 : SMMUState) (va sid asid vmid : Nat)
    (hen1 : s1.enabled = true)
    (hmissall : ∀ ps ∈ probe_sizes,
      alistFind s1.tlb.entries
        ⟨TLB.get_page_base va ps, sid, asid, vmid⟩ = none)
    (hs : (SMMU.translate_miss s1 va sid asid vmid).1.success = true) :
    (SMMU.translate (SMMU.translate_miss s1 va sid asid vmid).2
        va sid asid vmid).2.stats.tlb_hits
      = (SMMU.translate_miss s1 va sid asid vmid).2.stats.tlb_hits + 1 ∧
    (SMMU.translate (SMMU.translate_miss s1 va sid asid vmid).2
        va sid asid vmid).2.stats.page_table_walks
      = (SMMU.translate_miss s1 va sid asid vmid).2.stats.page_table_walks ∧
    (SMMU.translate (SMMU.translate_miss s1 va sid asid vmid).2
        va sid asid vmid).1.success = true ∧
    (SMMU.translate (SMMU.translate_miss s1 va sid asid vmid).2
        va sid asid vmid).1.physical_addr
      = (SMMU.translate_miss s1 va sid asid vmid).1.physical_addr ∧
    (SMMU.translate (SMMU.translate_miss s1 va sid asid vmid).2
        va sid asid vmid).1.memory_type
      = (SMMU.translate_miss s1 va sid asid vmid).1.memory_type ∧
    (SMMU.translate (SMMU.translate_miss s1 va sid asid vmid).2
        va sid asid vmid).1.permission
      = (SMMU.translate_miss s1 va sid asid vmid).1.permission ∧
    (SMMU.translate (SMMU.translate_miss s1 va sid asid vmid).2
        va sid asid vmid).1.cacheable
      = (SMMU.translate_miss s1 va sid asid vmid).1.cacheable ∧
    (SMMU.translate (SMMU.translate_miss s1 va sid asid vmid).2
        va sid asid vmid).1.shareable
      = (SMMU.translate_miss s1 va sid asid vmid).1.shareable := by
  obtain ⟨h2, hstg⟩ := translate_miss_success_eq s1 va sid asid vmid hs
  rw [h2]
  dsimp only
  have htlb := translate_stages_tlb s1 va sid asid vmid
    (SMMU.get_stream_table_entry s1 sid)
  have hena := translate_stages_enabled s1 va sid asid vmid
    (SMMU.get_stream_table_entry s1 sid)
  generalize hG : SMMU.translate_stages s1 va sid asid vmid
    (SMMU.get_stream_table_entry s1 sid) = stgd at htlb hena ⊢
  rw [htlb]
  have hfst2 := lookup_after_insert s1.tlb
    { va := va
      pa := stgd.1.physical_addr
      stream_id := sid
      asid := asid
      vmid := vmid
      page_size := .SIZE_4KB
      memory_type := stgd.1.memory_type
      permission := stgd.1.permission
      cacheable := stgd.1.cacheable
      shareable := stgd.1.shareable
      stage := if (SMMU.get_stream_table_entry s1 sid).s1_enabled
        then .STAGE1 else .STAGE2
      timestamp := 0 } va sid asid vmid rfl hmissall
  rcases hlp2 : TLB.lookup (TLB.insert s1.tlb
    { va := va
      pa := stgd.1.physical_addr
      stream_id := sid
      asid := asid
      vmid := vmid
      page_size := .SIZE_4KB
      memory_type := stgd.1.memory_type
      permission := stgd.1.permission
      cacheable := stgd.1.cacheable
      shareable := stgd.1.shareable
      stage := if (SMMU.get_stream_table_entry s1 sid).s1_enabled
        then .STAGE1 else .STAGE2
      timestamp := 0 }) va sid asid vmid with ⟨o2, tlb2⟩
  have ho2 : o2 = some
    { va := va
      pa := stgd.1.physical_addr
      stream_id := sid
      asid := asid
      vmid := vmid
      page_size := .SIZE_4KB
      memory_type := stgd.1.memory_type
      permission := stgd.1.permission
      cacheable := stgd.1.cacheable
      shareable := stgd.1.shareable
      stage := if (SMMU.get_stream_table_entry s1 sid).s1_enabled
        then .STAGE1 else .STAGE2
      timestamp := s1.tlb.timestamp_counter } := by
    rw [hlp2] at hfst2
    exact hfst2
  subst ho2
  have h3 := translate_hit_eq
    { stgd.2 with
      tlb := TLB.insert s1.tlb
        { va := va
          pa := stgd.1.physical_addr
          stream_id := sid
          asid := asid
          vmid := vmid
          page_size := .SIZE_4KB
          memory_type := stgd.1.memory_type
          permission := stgd.1.permission
          cacheable := stgd.1.cacheable
          shareable := stgd.1.shareable
          stage := if (SMMU.get_stream_table_entry s1 sid).s1_enabled
            then .STAGE1 else .STAGE2
          timestamp := 0 } } va sid asid vmid
    { va := va
      pa := stgd.1.physical_addr
      stream_id := sid
      asid := asid
      vmid := vmid
      page_size := .SIZE_4KB
      memory_type := stgd.1.memory_type
      permission := stgd.1.permission
      cacheable := stgd.1.cacheable
      shareable := stgd.1.shareable
      stage := if (SMMU.get_stream_table_entry s1 sid).s1_enabled
        then .STAGE1 else .STAGE2
      timestamp := s1.tlb.timestamp_counter } tlb2
    (by show stgd.2.enabled = true; rw [hena]; exact hen1) hlp2
  rw [h3]
  exact ⟨rfl, rfl, rfl, rfl, rfl, rfl, rfl, rfl⟩

/-- Processing one command always increments commands_processed by one,
whatever the command type. -/
theorem process_command_count (s : SMMUState) (cmd : Command) :
    (SMMU.process_command s cmd).stats.commands_processed
      = s.stats.commands_processed + 1 := by
  unfold SMMU.process_command
  rcases cmd with ⟨ty, a, b, c, d⟩
  cases ty <;> rfl

/-- Processing one command leaves the command queue alone (the drain loop
pops separately). -/
theorem process_command_queue (s : SMMUState) (cmd : Command) :
    (SMMU.process_command s cmd).command_queue = s.command_queue := by
  unfold SMMU.process_command
  rcases cmd with ⟨ty, a, b, c, d⟩
  cases ty <;> rfl

/-- The drain loop adds the number of processed commands to the
counter. -/
theorem process_commands_go_count (cmds : List Command) :
    ∀ s : SMMUState,
    (SMMU.process_commands_go cmds s).stats.commands_processed
      = s.stats.commands_processed + cmds.length := by
  induction cmds with
  | nil => intro s; rfl
  | cons c cs ih =>
    intro s
    unfold SMMU.process_commands_go
    rw [ih, process_command_count]
    simp only [List.length_cons]
    omega

/-- The drain loop leaves the command queue field alone. -/
theorem process_commands_go_queue (cmds : List Command) :
    ∀ s : SMMUState,
    (SMMU.process_commands_go cmds s).command_queue = s.command_queue := by
  induction cmds with
  | nil => intro s; rfl
  | cons c cs ih =>
    intro s
    unfold SMMU.process_commands_go
    rw [ih, process_command_queue]

/-- Submitting a batch that fits in the free space appends it, in order,
to the command queue, and changes nothing else. -/
theorem submit_all (cmds : List Command) : ∀ (s : SMMUState),
    s.command_queue.length + cmds.length ≤ s.config.command_queue_size →
    cmds.foldl SMMU.submit_command s
      = { s with command_queue := s.command_queue ++ cmds } := by
  induction cmds with
  | nil =>
    intro s h
    simp
  | cons c cs ih =>
    intro s h
    rw [List.foldl_cons]
    have hlt : s.command_queue.length < s.config.command_queue_size := by
      simp only [List.length_cons] at h
      omega
    have hsub : SMMU.submit_command s c
        = { s with command_queue := s.command_queue ++ [c] } := by
      unfold SMMU.submit_command
      rw [if_pos hlt]
    rw [hsub]
    rw [ih { s with command_queue := s.command_queue ++ [c] }
      (by simp only [List.length_append, List.length_cons,
            List.length_nil] at h ⊢
          omega)]
    rw [List.append_assoc]
    rfl

/-
Theorems for the individual claims.
-/

/-- C5: for every 64-bit descriptor word with bit 0 set, the parser marks
it a table descriptor at levels 0..2 exactly when bit 1 is 1, and at
level 3 it always marks it a leaf (is_table false) regardless of bit 1. -/
theorem C5_descriptor_type_bit (desc : Nat) (granule_size : Nat)
    (h0 : desc % 2 = 1) :
    (∀ level, level < 3 →
      ((PageTableWalker.parse_descriptor desc level granule_size).is_table = true
        ↔ (desc >>> 1) % 2 = 1)) ∧
    (PageTableWalker.parse_descriptor desc 3 granule_size).is_table = false := by
  have hbit : desc &&& 0x1 = 1 := by
    rw [Nat.and_one_is_mod]; exact h0
  constructor
  · intro level hl
    simp only [PageTableWalker.parse_descriptor, hbit]
    rw [Nat.and_one_is_mod]
    simp [hl]
  · simp only [PageTableWalker.parse_descriptor, hbit]
    simp

/-- Witness for C5 at the concrete descriptor 3 (bits 0 and 1 set) and
granule 12: a table descriptor at level 0, a leaf at level 3. -/
theorem C5_descriptor_type_bit_witness :
    ((PageTableWalker.parse_descriptor 3 0 12).is_table = true
      ↔ (3 >>> 1) % 2 = 1) ∧
    (PageTableWalker.parse_descriptor 3 3 12).is_table = false :=
  ⟨(C5_descriptor_type_bit 3 12 (by decide)).1 0 (by decide),
   (C5_descriptor_type_bit 3 12 (by decide)).2⟩

/-- C6: for every granule size other than 12, 14 and 16, the walker's
translate fails with the fault reason Invalid granule size, and the result
does not depend on the memory contents at all (no descriptor is read). -/
theorem C6_invalid_granule (mem mem2 : Nat → Option Nat) (va ttb : Nat)
    (granule_size : Nat) (ips_bits : Nat) (stage : TranslationStage)
    (h12 : granule_size ≠ 12) (h14 : granule_size ≠ 14)
    (h16 : granule_size ≠ 16) :
    PageTableWalker.translate mem va ttb granule_size ips_bits stage
      = { success := false, fault_reason := "Invalid granule size" } ∧
    PageTableWalker.translate mem va ttb granule_size ips_bits stage
      = PageTableWalker.translate mem2 va ttb granule_size ips_bits stage := by
  unfold PageTableWalker.translate
  simp [h12, h14, h16]

/-- Witness for C6 at granule 13, with two memories that disagree
everywhere. -/
theorem C6_invalid_granule_witness :
    PageTableWalker.translate (fun _ => none) 0x1000 0x2000 13 48 .STAGE1
      = { success := false, fault_reason := "Invalid granule size" } ∧
    PageTableWalker.translate (fun _ => none) 0x1000 0x2000 13 48 .STAGE1
      = PageTableWalker.translate (fun _ => some 0) 0x1000 0x2000 13 48
          .STAGE1 :=
  C6_invalid_granule (fun _ => none) (fun _ => some 0) 0x1000 0x2000 13 48
    .STAGE1 (by decide) (by decide) (by decide)

/-- C4: whenever the walk loop reads a descriptor that parses valid and
non-table at level L with granule g in 12, 14, 16 (L in 0..3, and L at
least 1 for granule 16, matching the walker's level schedule), it returns
success with physical address out_addr + (va AND (page_size - 1)) where
page_size follows the claim's granule-by-level table, carrying the leaf's
permission, memory type and shareable bits, and cacheable true exactly for
Normal-WriteThrough or Normal-WriteBack memory. -/
theorem C4_walker_leaf (mem : Nat → Option Nat) (va table_base : Nat)
    (level fuel granule_size d : Nat)
    (hg : (granule_size = 12 ∧ level ≤ 3) ∨ (granule_size = 14 ∧ level ≤ 3)
        ∨ (granule_size = 16 ∧ 1 ≤ level ∧ level ≤ 3))
    (hmem : mem (PageTableWalker.get_descriptor_address table_base
      (PageTableWalker.get_index_bits va level granule_size) granule_size)
      = some d)
    (hvalid : (PageTableWalker.parse_descriptor d level granule_size).valid
      = true)
    (hleaf : (PageTableWalker.parse_descriptor d level granule_size).is_table
      = false) :
    PageTableWalker.walk_loop mem va granule_size (fuel + 1) level table_base
      = { success := true
          physical_addr :=
            (PageTableWalker.parse_descriptor d level granule_size).address
              + (va &&& (claim_page_bytes level granule_size - 1))
          permission :=
            (PageTableWalker.parse_descriptor d level granule_size).ap
          memory_type :=
            (PageTableWalker.parse_descriptor d level granule_size).mem_attr
          cacheable :=
            ((PageTableWalker.parse_descriptor d level granule_size).mem_attr
                == MemoryType.NORMAL_WT
              || (PageTableWalker.parse_descriptor d level granule_size).mem_attr
                == MemoryType.NORMAL_WB)
          shareable :=
            (PageTableWalker.parse_descriptor d level granule_size).shareable }
    := by
  have hps : (PageTableWalker.get_page_size level granule_size).bytes
      = claim_page_bytes level granule_size := by
    rcases hg with ⟨h, hl⟩ | ⟨h, hl⟩ | ⟨h, h1, hl⟩ <;> subst h <;>
      interval_cases level <;> rfl
  simp only [PageTableWalker.walk_loop, hmem, hvalid, hleaf, hps,
    Bool.not_true, Bool.not_false, Bool.false_eq_true, if_false, if_true,
    Bool.or_comm]

/-- Witness for C4: a single block descriptor at level 0 with granule 12
(a 512 MiB block): output address 0x40000000, write-back memory,
read-write, physical address 0x40000123 for va 0x123. -/
theorem C4_walker_leaf_witness :
    PageTableWalker.walk_loop
      (fun a => if a = 0x2000 then some 0x40000011 else none)
      0x123 12 4 0 0x2000
      = { success := true, physical_addr := 0x40000123,
          permission := .READ_WRITE, memory_type := .NORMAL_WB,
          cacheable := true, shareable := false } := by
  have h := C4_walker_leaf
    (fun a => if a = 0x2000 then some 0x40000011 else none)
    0x123 0x2000 0 3 12 0x40000011
    (Or.inl (by decide)) (by decide) (by decide) (by decide)
  rw [h]
  decide

/-- C10: popping the event queue when it is empty returns the
default-constructed event (fault type NONE, all identifier, address and
timestamp fields zero) and leaves the state unchanged with the queue still
empty. -/
theorem C10_pop_event_empty (s : SMMUState) (h : SMMU.has_events s = false) :
    SMMU.pop_event s =
      ({ fault_type := .NONE, stream_id := 0, asid := 0, vmid := 0,
         va := 0, description := "", timestamp := 0 }, s) ∧
    (SMMU.pop_event s).2.event_queue = [] := by
  have hq : s.event_queue = [] := by
    simpa [SMMU.has_events, List.isEmpty_iff] using h
  constructor
  · simp [SMMU.pop_event, hq]
  · simp [SMMU.pop_event, hq]

/-- C1: if a translation succeeds and the identical call is repeated with
no intervening operation, the second call is a cache hit - the tlb_hits
counter rises by exactly one and the page_table_walks counter does not
move - and it returns the same physical address, memory type, permission,
cacheable and shareable values as the first call. -/
theorem C1_repeat_translate_hits (s0 : SMMUState) (va sid asid vmid : Nat)
    (hs : (SMMU.translate s0 va sid asid vmid).1.success = true) :
    (SMMU.translate (SMMU.translate s0 va sid asid vmid).2
        va sid asid vmid).2.stats.tlb_hits
      = (SMMU.translate s0 va sid asid vmid).2.stats.tlb_hits + 1 ∧
    (SMMU.translate (SMMU.translate s0 va sid asid vmid).2
        va sid asid vmid).2.stats.page_table_walks
      = (SMMU.translate s0 va sid asid vmid).2.stats.page_table_walks ∧
    (SMMU.translate (SMMU.translate s0 va sid asid vmid).2
        va sid asid vmid).1.success = true ∧
    (SMMU.translate (SMMU.translate s0 va sid asid vmid).2
        va sid asid vmid).1.physical_addr
      = (SMMU.translate s0 va sid asid vmid).1.physical_addr ∧
    (SMMU.translate (SMMU.translate s0 va sid asid vmid).2
        va sid asid vmid).1.memory_type
      = (SMMU.translate s0 va sid asid vmid).1.memory_type ∧
    (SMMU.translate (SMMU.translate s0 va sid asid vmid).2
        va sid asid vmid).1.permission
      = (SMMU.translate s0 va sid asid vmid).1.permission ∧
    (SMMU.translate (SMMU.translate s0 va sid asid vmid).2
        va sid asid vmid).1.cacheable
      = (SMMU.translate s0 va sid asid vmid).1.cacheable ∧
    (SMMU.translate (SMMU.translate s0 va sid asid vmid).2
        va sid asid vmid).1.shareable
      = (SMMU.translate s0 va sid asid vmid).1.shareable := by
  have hen := translate_success_enabled s0 va sid asid vmid hs
  rcases hlp : TLB.lookup s0.tlb va sid asid vmid with ⟨o, tlb1⟩
  have hent : tlb1.entries = s0.tlb.entries := by
    have h := lookup_loop_entries probe_sizes s0.tlb va sid asid vmid
    unfold TLB.lookup at hlp
    rw [hlp] at h
    exact h
  cases o with
  | some e =>
    have h1 := translate_hit_eq s0 va sid asid vmid e tlb1 hen hlp
    have hfst : (TLB.lookup_loop tlb1 va sid asid vmid probe_sizes).1
        = some e := by
      rw [lookup_loop_fst_congr probe_sizes tlb1 s0.tlb va sid asid vmid hent]
      unfold TLB.lookup at hlp
      rw [hlp]
    rcases hlp2 : TLB.lookup tlb1 va sid asid vmid with ⟨o2, tlb2⟩
    have ho2 : o2 = some e := by
      unfold TLB.lookup at hlp2
      rw [hlp2] at hfst
      exact hfst
    subst ho2
    have h2 := translate_hit_eq
      { s0 with
        tlb := tlb1
        stats := { s0.stats with
          total_translations := s0.stats.total_translations + 1
          tlb_hits := s0.stats.tlb_hits + 1 } } va sid asid vmid e tlb2
      hen hlp2
    rw [h1, h2]
    exact ⟨rfl, rfl, rfl, rfl, rfl, rfl, rfl, rfl⟩
  | none =>
    have h1 := translate_miss_eq s0 va sid asid vmid tlb1 hen hlp
    rw [h1] at hs ⊢
    have hfst : (TLB.lookup_loop s0.tlb va sid asid vmid probe_sizes).1
        = none := by
      unfold TLB.lookup at hlp
      rw [hlp]
    refine second_call_after_miss _ va sid asid vmid hen ?_ hs
    intro ps hps
    show alistFind tlb1.entries
      ⟨TLB.get_page_base va ps, sid, asid, vmid⟩ = none
    rw [hent]
    exact lookup_loop_none_find probe_sizes s0.tlb va sid asid vmid hfst ps hps

/-- Witness for C1 on the configured fixture: the first call walks and
succeeds, the identical second call hits with the same result. -/
theorem C1_repeat_translate_hits_witness :
    (SMMU.translate (SMMU.translate configured_smmu 0x123 7 1 0).2
        0x123 7 1 0).2.stats.tlb_hits
      = (SMMU.translate configured_smmu 0x123 7 1 0).2.stats.tlb_hits + 1 ∧
    (SMMU.translate (SMMU.translate configured_smmu 0x123 7 1 0).2
        0x123 7 1 0).2.stats.page_table_walks
      = (SMMU.translate configured_smmu 0x123 7 1 0).2.stats.page_table_walks ∧
    (SMMU.translate (SMMU.translate configured_smmu 0x123 7 1 0).2
        0x123 7 1 0).1.success = true ∧
    (SMMU.translate (SMMU.translate configured_smmu 0x123 7 1 0).2
        0x123 7 1 0).1.physical_addr
      = (SMMU.translate configured_smmu 0x123 7 1 0).1.physical_addr ∧
    (SMMU.translate (SMMU.translate configured_smmu 0x123 7 1 0).2
        0x123 7 1 0).1.memory_type
      = (SMMU.translate configured_smmu 0x123 7 1 0).1.memory_type ∧
    (SMMU.translate (SMMU.translate configured_smmu 0x123 7 1 0).2
        0x123 7 1 0).1.permission
      = (SMMU.translate configured_smmu 0x123 7 1 0).1.permission ∧
    (SMMU.translate (SMMU.translate configured_smmu 0x123 7 1 0).2
        0x123 7 1 0).1.cacheable
      = (SMMU.translate configured_smmu 0x123 7 1 0).1.cacheable ∧
    (SMMU.translate (SMMU.translate configured_smmu 0x123 7 1 0).2
        0x123 7 1 0).1.shareable
      = (SMMU.translate configured_smmu 0x123 7 1 0).1.shareable :=
  C1_repeat_translate_hits configured_smmu 0x123 7 1 0 (by decide)

/-- C3: every call to translate on an enabled unit that returns failure
increments the translation_faults counter by exactly one and generates
exactly one fault event: the event queue grows by one and the
events_generated counter rises by one when the queue had room, while a
full queue drops the event and stays unchanged. -/
theorem C3_failure_fault_bookkeeping (s0 : SMMUState) (va sid asid vmid : Nat)
    (hen : s0.enabled = true)
    (hf : (SMMU.translate s0 va sid asid vmid).1.success = false) :
    (SMMU.translate s0 va sid asid vmid).2.stats.translation_faults
      = s0.stats.translation_faults + 1 ∧
    (if s0.event_queue.length < s0.config.event_queue_size then
      (SMMU.translate s0 va sid asid vmid).2.event_queue.length
          = s0.event_queue.length + 1 ∧
      (SMMU.translate s0 va sid asid vmid).2.stats.events_generated
          = s0.stats.events_generated + 1
    else
      (SMMU.translate s0 va sid asid vmid).2.event_queue = s0.event_queue ∧
      (SMMU.translate s0 va sid asid vmid).2.stats.events_generated
          = s0.stats.events_generated) := by
  show FaultEmitEffect s0 (SMMU.translate s0 va sid asid vmid).2
  rcases hlp : TLB.lookup s0.tlb va sid asid vmid with ⟨o, tlb1⟩
  cases o with
  | some e =>
    rw [translate_hit_eq s0 va sid asid vmid e tlb1 hen hlp] at hf
    simp at hf
  | none =>
    rw [translate_miss_eq s0 va sid asid vmid tlb1 hen hlp] at hf ⊢
    exact FaultEmitEffect_congr _ s0 _ rfl rfl rfl rfl
      (translate_miss_fail_effect _ va sid asid vmid hf)

/-- Witness for C3: on the bare enabled fixture, a translation fails for
lack of a stream table entry; the fault counter goes from 0 to 1 and one
event is enqueued. -/
theorem C3_failure_fault_bookkeeping_witness :
    (SMMU.translate bare_enabled_smmu 5 7 1 2).2.stats.translation_faults
      = bare_enabled_smmu.stats.translation_faults + 1 ∧
    (if bare_enabled_smmu.event_queue.length
        < bare_enabled_smmu.config.event_queue_size then
      (SMMU.translate bare_enabled_smmu 5 7 1 2).2.event_queue.length
          = bare_enabled_smmu.event_queue.length + 1 ∧
      (SMMU.translate bare_enabled_smmu 5 7 1 2).2.stats.events_generated
          = bare_enabled_smmu.stats.events_generated + 1
    else
      (SMMU.translate bare_enabled_smmu 5 7 1 2).2.event_queue
          = bare_enabled_smmu.event_queue ∧
      (SMMU.translate bare_enabled_smmu 5 7 1 2).2.stats.events_generated
          = bare_enabled_smmu.stats.events_generated) :=
  C3_failure_fault_bookkeeping bare_enabled_smmu 5 7 1 2 rfl (by decide)

/-- C2: whenever translate succeeds via the miss path, the cache of the
final state holds, under the key (page base of va at 4 KiB, stream, asid,
vmid), an entry with page_size 4 KiB whose fields are the request
identifiers and the attributes of the returned result - regardless of the
size of the block the walk actually ended at. -/
theorem C2_miss_installs_4k_entry (s0 : SMMUState) (va sid asid vmid : Nat)
    (hmiss : (TLB.lookup s0.tlb va sid asid vmid).1 = none)
    (hs : (SMMU.translate s0 va sid asid vmid).1.success = true) :
    ∃ e : TLBEntry,
      alistFind (SMMU.translate s0 va sid asid vmid).2.tlb.entries
          ⟨TLB.get_page_base va PageSize.SIZE_4KB, sid, asid, vmid⟩
        = some e ∧
      e.page_size = PageSize.SIZE_4KB ∧
      e.va = va ∧ e.stream_id = sid ∧ e.asid = asid ∧ e.vmid = vmid ∧
      e.pa = (SMMU.translate s0 va sid asid vmid).1.physical_addr ∧
      e.memory_type = (SMMU.translate s0 va sid asid vmid).1.memory_type ∧
      e.permission = (SMMU.translate s0 va sid asid vmid).1.permission ∧
      e.cacheable = (SMMU.translate s0 va sid asid vmid).1.cacheable ∧
      e.shareable = (SMMU.translate s0 va sid asid vmid).1.shareable := by
  have hen := translate_success_enabled s0 va sid asid vmid hs
  rcases hlp : TLB.lookup s0.tlb va sid asid vmid with ⟨o, tlb1⟩
  have ho : o = none := by rw [hlp] at hmiss; exact hmiss
  subst ho
  have hent : tlb1.entries = s0.tlb.entries := by
    have h := lookup_loop_entries probe_sizes s0.tlb va sid asid vmid
    unfold TLB.lookup at hlp
    rw [hlp] at h
    exact h
  have hfst : (TLB.lookup_loop s0.tlb va sid asid vmid probe_sizes).1
      = none := by
    unfold TLB.lookup at hlp
    rw [hlp]
  have hmissall : ∀ ps ∈ probe_sizes,
      alistFind tlb1.entries
        ⟨TLB.get_page_base va ps, sid, asid, vmid⟩ = none := by
    intro ps hps
    rw [hent]
    exact lookup_loop_none_find probe_sizes s0.tlb va sid asid vmid hfst ps hps
  rw [translate_miss_eq s0 va sid asid vmid tlb1 hen hlp] at hs ⊢
  obtain ⟨h2, hstg⟩ := translate_miss_success_eq _ va sid asid vmid hs
  rw [h2]
  dsimp only
  rw [show (SMMU.translate_stages
      { s0 with
        tlb := tlb1
        stats := { s0.stats with
          total_translations := s0.stats.total_translations + 1
          tlb_misses := s0.stats.tlb_misses + 1 } } va sid asid vmid
      (SMMU.get_stream_table_entry
        { s0 with
          tlb := tlb1
          stats := { s0.stats with
            total_translations := s0.stats.total_translations + 1
            tlb_misses := s0.stats.tlb_misses + 1 } } sid)).2.tlb = tlb1
    from translate_stages_tlb _ _ _ _ _ _]
  exact ⟨_, alistFind_insert_self tlb1 _
      (hmissall PageSize.SIZE_4KB (by simp [probe_sizes])),
    rfl, rfl, rfl, rfl, rfl, rfl, rfl, rfl, rfl, rfl⟩

/-- Witness for C2: on the configured fixture, translating va 0x123
misses, walks to the 512 MiB block, and still installs a 4 KiB entry at
page base 0 with the block's output attributes. -/
theorem C2_miss_installs_4k_entry_witness :
    ∃ e : TLBEntry,
      alistFind (SMMU.translate configured_smmu 0x123 7 1 0).2.tlb.entries
          ⟨TLB.get_page_base 0x123 PageSize.SIZE_4KB, 7, 1, 0⟩
        = some e ∧
      e.page_size = PageSize.SIZE_4KB ∧
      e.va = 0x123 ∧ e.stream_id = 7 ∧ e.asid = 1 ∧ e.vmid = 0 ∧
      e.pa = (SMMU.translate configured_smmu 0x123 7 1 0).1.physical_addr ∧
      e.memory_type
        = (SMMU.translate configured_smmu 0x123 7 1 0).1.memory_type ∧
      e.permission
        = (SMMU.translate configured_smmu 0x123 7 1 0).1.permission ∧
      e.cacheable
        = (SMMU.translate configured_smmu 0x123 7 1 0).1.cacheable ∧
      e.shareable
        = (SMMU.translate configured_smmu 0x123 7 1 0).1.shareable :=
  C2_miss_installs_4k_entry configured_smmu 0x123 7 1 0 (by decide) (by decide)

/-- Inserting entries with pairwise-distinct keys into an empty cache of
positive capacity N keeps, as both the key list of the entry map and the
recency list (most recent first), exactly the reversal of the last
min(length, N) keys in insertion order. -/
theorem insert_distinct_window (N : Nat) (hN : 1 ≤ N) (es : List TLBEntry)
    (hnodup : (es.map TLB.entry_key).Nodup) :
    ((es.foldl TLB.insert (TLB.empty N)).entries.map Prod.fst
        = ((es.map TLB.entry_key).drop (es.length - N)).reverse) ∧
    ((es.foldl TLB.insert (TLB.empty N)).lru_list
        = ((es.map TLB.entry_key).drop (es.length - N)).reverse) ∧
    ((es.foldl TLB.insert (TLB.empty N)).capacity = N) := by
  induction es using List.reverseRecOn with
  | nil => exact ⟨by simp [TLB.empty], by simp [TLB.empty], rfl⟩
  | append_singleton l e ih =>
    rw [show ((l ++ [e]).map TLB.entry_key)
        = l.map TLB.entry_key ++ [TLB.entry_key e] by simp] at hnodup
    have hnl : (l.map TLB.entry_key).Nodup := (List.nodup_append.mp hnodup).1
    have hdisj := (List.nodup_append.mp hnodup).2.2
    have hfresh : TLB.entry_key e ∉ l.map TLB.entry_key := by
      intro hm
      exact hdisj hm (by simp)
    obtain ⟨hE, hL, hC⟩ := ih hnl
    simp only [List.foldl_append, List.foldl_cons, List.foldl_nil]
    have hfreshW : TLB.entry_key e
        ∉ (l.map TLB.entry_key).drop (l.length - N) := fun hm =>
      hfresh ((List.drop_sublist _ _).subset hm)
    have hnoneT : alistFind (l.foldl TLB.insert (TLB.empty N)).entries
        (TLB.entry_key e) = none := by
      apply alistFind_eq_none_of_not_mem
      rw [hE]
      intro hm
      exact hfreshW (List.mem_reverse.mp hm)
    have hlenE : (l.foldl TLB.insert (TLB.empty N)).entries.length
        = l.length - (l.length - N) := by
      have hcl := congrArg List.length hE
      simpa [List.length_reverse, List.length_drop,
        List.length_map] using hcl
    generalize hG : List.foldl TLB.insert (TLB.empty N) l = t
      at hE hL hC hnoneT hlenE ⊢
    unfold TLB.insert
    dsimp only
    have hcond : ¬ ((alistFind t.entries
        (TLB.entry_key e)).isSome = true) := by
      rw [hnoneT]
      simp
    rw [if_neg hcond]
    by_cases hbig : N ≤ l.length
    · have hEQ : t.entries.length = N := by
        rw [hlenE]
        omega
      have hcond2 : t.entries.length ≥ t.capacity := by
        rw [hEQ, hC]
      rw [if_pos hcond2]
      have hWlen : ((l.map TLB.entry_key).drop (l.length - N)).length
          = N := by
        simp only [List.length_drop, List.length_map]
        omega
      cases hW : (l.map TLB.entry_key).drop (l.length - N) with
      | nil =>
        rw [hW] at hWlen
        simp at hWlen
        omega
      | cons w0 Wt =>
        have hgl : t.lru_list.getLast? = some w0 := by
          rw [hL, hW, List.getLast?_reverse]
          rfl
        unfold TLB.evict_lru
        rw [hgl]
        dsimp only
        have hWnodup : (w0 :: Wt).Nodup := by
          rw [← hW]
          exact hnl.sublist (List.drop_sublist _ _)
        have hErE : (alistErase t.entries w0).map Prod.fst
            = Wt.reverse := by
          apply alistErase_last_key _ Wt.reverse w0
          · rw [hE, hW, List.reverse_cons]
          · intro hm
            exact (List.nodup_cons.mp hWnodup).1 (List.mem_reverse.mp hm)
        have hnoneE : alistFind (alistErase t.entries w0)
            (TLB.entry_key e) = none :=
          alistFind_none_of_sublist _ _ _ (List.eraseP_sublist _) hnoneT
        rw [alistAssign_none_eq _ _ _ hnoneE]
        have hdropW : (l.map TLB.entry_key).drop (l.length + 1 - N)
            = Wt := by
          have hidx : l.length + 1 - N = (l.length - N) + 1 := by omega
          rw [hidx, ← List.drop_drop, hW]
          simp
        have hT : (((l ++ [e]).map TLB.entry_key).drop
            ((l ++ [e]).length - N)).reverse
            = TLB.entry_key e :: Wt.reverse := by
          rw [show ((l ++ [e]).map TLB.entry_key)
                = l.map TLB.entry_key ++ [TLB.entry_key e] by simp,
              show (l ++ [e]).length = l.length + 1 by simp,
              List.drop_append_eq_append_drop, hdropW,
              show l.length + 1 - N - (l.map TLB.entry_key).length = 0 by
                simp only [List.length_map]
                omega]
          simp
        refine ⟨?_, ?_, ?_⟩
        · rw [hT]
          simp only [List.map_cons, hErE]
        · rw [hT, hL, hW, dropLast_reverse_eq_reverse_tail]
          rfl
        · exact hC
    · have hcond2 : ¬ (t.entries.length ≥ t.capacity) := by
        rw [hlenE, hC]
        omega
      rw [if_neg hcond2]
      rw [alistAssign_none_eq _ _ _ hnoneT]
      have hzero : l.length - N = 0 := by omega
      have hT : (((l ++ [e]).map TLB.entry_key).drop
          ((l ++ [e]).length - N)).reverse
          = TLB.entry_key e :: (l.map TLB.entry_key).reverse := by
        rw [show ((l ++ [e]).map TLB.entry_key)
              = l.map TLB.entry_key ++ [TLB.entry_key e] by simp,
            show (l ++ [e]).length = l.length + 1 by simp,
            show l.length + 1 - N = 0 by omega]
        simp
      have hE0 : t.entries.map Prod.fst
          = (l.map TLB.entry_key).reverse := by
        rw [hE, hzero]
        simp
      have hL0 : t.lru_list = (l.map TLB.entry_key).reverse := by
        rw [hL, hzero]
        simp
      refine ⟨?_, ?_, ?_⟩
      · rw [hT]
        simp only [List.map_cons, hE0]
      · rw [hT, hL0]
      · exact hC

/-- Counterexample to C7 as stated: with capacity N = 0 and k = 1, the
single inserted key (the first k = 1 keys) is still present afterwards,
because a capacity-0 cache cannot evict from its empty recency list yet
stores the new entry unconditionally. -/
theorem C7_lru_eviction_counterexample :
    ¬ (∀ key0 ∈ (([{ va := 0x1000 }] : List TLBEntry).map
          TLB.entry_key).take 1,
        alistFind (([{ va := 0x1000 }] : List TLBEntry).foldl TLB.insert
          (TLB.empty 0)).entries key0 = none) := by
  decide

/-- C7 amended: starting from an empty cache of positive capacity N,
after inserting N + k entries with pairwise-distinct keys and no
interleaved lookups, the first k inserted keys are absent from the cache
(each overflow insertion evicts the least recently used key).  For
N = 0 the most recent insertion always survives, see the
counterexample. -/
theorem C7_lru_eviction (N k : Nat) (hN : 1 ≤ N) (es : List TLBEntry)
    (hlen : es.length = N + k)
    (hnodup : (es.map TLB.entry_key).Nodup) :
    ∀ key0 ∈ (es.map TLB.entry_key).take k,
      alistFind (es.foldl TLB.insert (TLB.empty N)).entries key0
        = none := by
  intro key0 hk0
  obtain ⟨hE, _, _⟩ := insert_distinct_window N hN es hnodup
  apply alistFind_eq_none_of_not_mem
  rw [hE]
  intro hm
  rw [List.mem_reverse] at hm
  have hdk : es.length - N = k := by omega
  rw [hdk] at hm
  exact (List.disjoint_take_drop hnodup (le_refl k)) hk0 hm

/-- Witness for C7 amended: capacity 2, three distinct keys inserted,
the first key is gone. -/
theorem C7_lru_eviction_witness :
    alistFind (([{ va := 0x1000 }, { va := 0x2000 }, { va := 0x3000 }]
        : List TLBEntry).foldl TLB.insert (TLB.empty 2)).entries
      (TLB.entry_key { va := 0x1000 }) = none :=
  C7_lru_eviction 2 1 (by decide)
    [{ va := 0x1000 }, { va := 0x2000 }, { va := 0x3000 }]
    (by decide) (by decide)
    (TLB.entry_key { va := 0x1000 }) (by decide)

/-- Counterexample to C9 as stated: with one command already queued,
submitting one more command and draining processes both, so
commands_processed rises by 2, not by exactly N = 1. -/
theorem C9_fifo_drain_counterexample :
    ¬ ((SMMU.process_commands
          (SMMU.submit_command prequeued_smmu {})).stats.commands_processed
        = prequeued_smmu.stats.commands_processed + 1) := by
  decide

/-- C9 amended: if N commands are submitted while the command queue has
at least N free slots and the queue is then drained, the submitted
commands sit after the previously queued ones in FIFO order, the drain
processes that whole sequence front to back until the queue is empty,
and commands_processed rises by N plus the number of previously queued
commands (exactly N when the queue started empty). -/
theorem C9_fifo_drain (s : SMMUState) (cmds : List Command)
    (hroom : s.command_queue.length + cmds.length
      ≤ s.config.command_queue_size) :
    (cmds.foldl SMMU.submit_command s).command_queue
        = s.command_queue ++ cmds ∧
    SMMU.process_commands (cmds.foldl SMMU.submit_command s)
        = SMMU.process_commands_go (s.command_queue ++ cmds)
            { cmds.foldl SMMU.submit_command s with
              command_queue := [] } ∧
    (SMMU.process_commands
        (cmds.foldl SMMU.submit_command s)).stats.commands_processed
        = s.stats.commands_processed + s.command_queue.length
          + cmds.length ∧
    (SMMU.process_commands
        (cmds.foldl SMMU.submit_command s)).command_queue = [] := by
  have hfold := submit_all cmds s hroom
  refine ⟨by rw [hfold], ?_, ?_, ?_⟩
  · rw [hfold]
    rfl
  · rw [hfold]
    unfold SMMU.process_commands
    dsimp only
    rw [process_commands_go_count]
    simp only [List.length_append]
    omega
  · rw [hfold]
    unfold SMMU.process_commands
    dsimp only
    rw [process_commands_go_queue]

/-- Witness for C9 amended: submitting one Sync command to the bare
fixture (empty queue, depth 64) and draining processes exactly it. -/
theorem C9_fifo_drain_witness :
    (([({} : Command)]).foldl SMMU.submit_command
        bare_enabled_smmu).command_queue
      = bare_enabled_smmu.command_queue ++ [({} : Command)] ∧
    SMMU.process_commands (([({} : Command)]).foldl SMMU.submit_command
        bare_enabled_smmu)
      = SMMU.process_commands_go
          (bare_enabled_smmu.command_queue ++ [({} : Command)])
          { ([({} : Command)]).foldl SMMU.submit_command
              bare_enabled_smmu with
            command_queue := [] } ∧
    (SMMU.process_commands (([({} : Command)]).foldl SMMU.submit_command
        bare_enabled_smmu)).stats.commands_processed
      = bare_enabled_smmu.stats.commands_processed
        + bare_enabled_smmu.command_queue.length + 1 ∧
    (SMMU.process_commands (([({} : Command)]).foldl SMMU.submit_command
        bare_enabled_smmu)).command_queue = [] :=
  C9_fifo_drain bare_enabled_smmu [({} : Command)] (by decide)

/-- Counterexample to C8 as stated: a cache created with capacity 0
still stores the entry of a single insert, because eviction on an empty
recency list is a no-op while the assignment is unconditional, so the
entry count 1 exceeds N = 0. -/
theorem C8_capacity_bound_counterexample :
    ¬ ((TLB.applyOps (TLB.empty 0) [TLBOp.insert {}]).entries.length ≤ 0) := by
  decide

/-- C8 amended: for every cache created with positive capacity N, no
sequence of lookup, insert and invalidation operations ever brings the
number of stored entries above N.  (With N = 0 the bound fails by one,
see the counterexample; the general bound is max N 1.) -/
theorem C8_capacity_bound (N : Nat) (hN : 1 ≤ N) (ops : List TLBOp) :
    (TLB.applyOps (TLB.empty N) ops).entries.length ≤ N := by
  have h := applyOps_preserves ops (TLB.empty N) (WF_empty N)
    (Nat.zero_le _) hN
  have hlen := h.2.1
  rw [h.2.2] at hlen
  exact hlen

/-- Witness for C8 amended at capacity 1 with two inserts and a lookup:
the cache never holds more than one entry. -/
theorem C8_capacity_bound_witness :
    (TLB.applyOps (TLB.empty 1)
      [TLBOp.insert {}, TLBOp.insert { va := 0x1000 },
       TLBOp.lookup 0 0 0 0]).entries.length ≤ 1 :=
  C8_capacity_bound 1 (by decide)
    [TLBOp.insert {}, TLBOp.insert { va := 0x1000 },
     TLBOp.lookup 0 0 0 0]

/-- Witness for C10 at a concrete state with an empty event queue. -/
theorem C10_pop_event_empty_witness :
    SMMU.pop_event { tlb := TLB.empty 128, mem := fun _ => none } =
      ({ fault_type := .NONE, stream_id := 0, asid := 0, vmid := 0,
         va := 0, description := "", timestamp := 0 },
       { tlb := TLB.empty 128, mem := fun _ => none }) ∧
    (SMMU.pop_event
      { tlb := TLB.empty 128, mem := fun _ => none }).2.event_queue = [] :=
  C10_pop_event_empty { tlb := TLB.empty 128, mem := fun _ => none } rfl

end SmmuModel
